import Mathlib

/-!
Verification of the trend-intel ingestion/classification/clustering/scoring
pipeline (`src/ml-services/trend-intel/app`) against its natural-language
specification.

Python floats are modelled as exact rationals (`ℚ`); `round(x, 2)` is modelled
as half-to-even rounding to two decimals; `math.log10` is kept abstract as a
function parameter `l10 : ℚ → ℚ` wherever a formula needs it, since only sign
and monotonicity facts about it are ever used.  Machine exceptions are modelled
with `Except PyErr`.
-/

namespace Viralfx

/-- Python exception values that the pipeline raises and catches. -/
inductive PyErr where
  | typeError
  | valueError
  | providerError
  deriving Repr, DecidableEq

/-- Python truthiness for a numeric value: `x or y` yields `y` when `x == 0`. -/
def pyOr (x y : ℚ) : ℚ := if x = 0 then y else x

/-- Round a rational to the nearest integer, ties to even (CPython `round`). -/
def roundHalfEven (q : ℚ) : ℤ :=
  if q - ⌊q⌋ < 1/2 then ⌊q⌋
  else if 1/2 < q - ⌊q⌋ then ⌊q⌋ + 1
  else if ⌊q⌋ % 2 = 0 then ⌊q⌋ else ⌊q⌋ + 1

/-- Model of Python `round(x, 2)`. -/
def round2 (q : ℚ) : ℚ := (roundHalfEven (q * 100) : ℚ) / 100

theorem le_roundHalfEven (n : ℤ) (q : ℚ) (h : (n : ℚ) ≤ q) : n ≤ roundHalfEven q := by
  have hf : n ≤ ⌊q⌋ := Int.le_floor.mpr h
  unfold roundHalfEven
  split_ifs <;> omega

theorem roundHalfEven_le (n : ℤ) (q : ℚ) (h : q ≤ (n : ℚ)) : roundHalfEven q ≤ n := by
  have hf : ⌊q⌋ ≤ n := by
    have h1 := Int.floor_mono h
    rwa [Int.floor_intCast] at h1
  have hfq : (⌊q⌋ : ℚ) ≤ q := Int.floor_le q
  unfold roundHalfEven
  split_ifs with h1 h2 h3
  · exact hf
  · have hq : (⌊q⌋ : ℚ) < (n : ℚ) := by linarith
    have : ⌊q⌋ < n := by exact_mod_cast hq
    omega
  · exact hf
  · have hhalf : q - ⌊q⌋ = 1/2 := le_antisymm (not_lt.mp h2) (not_lt.mp h1)
    have hq : (⌊q⌋ : ℚ) < (n : ℚ) := by linarith
    have : ⌊q⌋ < n := by exact_mod_cast hq
    omega

theorem round2_bounds (a b : ℤ) (q : ℚ) (h1 : (a : ℚ)/100 ≤ q) (h2 : q ≤ (b : ℚ)/100) :
    (a : ℚ)/100 ≤ round2 q ∧ round2 q ≤ (b : ℚ)/100 := by
  have ha : (a : ℚ) ≤ q * 100 := by linarith
  have hb : q * 100 ≤ (b : ℚ) := by linarith
  have l1 := le_roundHalfEven a (q * 100) ha
  have l2 := roundHalfEven_le b (q * 100) hb
  constructor
  · unfold round2
    have : (a : ℚ) ≤ (roundHalfEven (q * 100) : ℚ) := by exact_mod_cast l1
    linarith
  · unfold round2
    have : ((roundHalfEven (q * 100) : ℚ)) ≤ (b : ℚ) := by exact_mod_cast l2
    linarith

/-! ## Virality scorer (`app/services/virality_score.py`)

The scorer's input `metrics` is a Python dict read with `.get` and defaults;
we model it as a structure whose field defaults are the `.get` defaults. -/

/-- Input metrics dict of `ViralityScorer.calculate_virality_score`. -/
structure ScoreMetrics where
  likes : ℚ := 0
  comments : ℚ := 0
  shares : ℚ := 0
  impressions : Option ℚ := none
  views : Option ℚ := none
  historical_engagement : ℚ := 0
  time_diff_minutes : ℚ := 60
  sentiment : ℚ := 0
  toxicity : ℚ := 0
  language_confidence : ℚ := 0
  is_spam : Bool := false
  region : Option String := none
  is_sa : Bool := false
  deriving Repr, DecidableEq

/-- Result schema `ViralityMetrics` (app/models/schemas.py, line 448). -/
structure ViralityMetrics where
  engagement_rate : ℚ
  velocity : ℚ
  sentiment_strength : ℚ
  quality_multiplier : ℚ
  regional_weight : ℚ
  virality_score : ℚ
  deriving Repr, DecidableEq

/-- Embeds `ViralityScorer.calculate_engagement_rate` (virality_score.py lines
94-125).  Its Python signature takes five arguments
`(likes, shares, comments, views, impressions)`.  `math.log10` is the abstract
parameter `l10`; a non-positive argument to `log10` raises `ValueError`, which
the method's own `except` turns into `0.0`. -/
def calculate_engagement_rate (l10 : ℚ → ℚ)
    (likes shares comments views impressions : ℚ) : ℚ :=
  let total_engagement := likes + comments + shares
  let effective_impressions := max (pyOr impressions (pyOr views 1)) 1
  let raw_rate := total_engagement / effective_impressions * 100
  if raw_rate + 1 ≤ 0 then 0
  else round2 (min (l10 (raw_rate + 1) * 20) 100)

/-- Embeds `ViralityScorer.calculate_velocity` (lines 127-161). -/
def calculate_velocity (l10 : ℚ → ℚ)
    (current_engagement previous_engagement time_minutes : ℚ) : ℚ :=
  if time_minutes ≤ 0 then 0
  else
    let engagement_change := current_engagement - previous_engagement
    if engagement_change ≤ 0 then 0
    else
      let raw_velocity := engagement_change / time_minutes
      round2 (min (l10 (raw_velocity + 1) * 15) 100)

/-- Embeds `ViralityScorer.calculate_sentiment_strength` (lines 163-183). -/
def calculate_sentiment_strength (sentiment_score : ℚ) : ℚ :=
  round2 (min (|sentiment_score| * 100) 100)

/-- Embeds `ViralityScorer.calculate_quality_multiplier` (lines 185-226). -/
def calculate_quality_multiplier (toxicity language_confidence : ℚ) (is_spam : Bool) : ℚ :=
  let m0 : ℚ := 1
  let m1 := if toxicity < 3/10 then m0 + 2/10 else if 7/10 < toxicity then m0 - 5/10 else m0
  let m2 := if 8/10 < language_confidence then m1 + 1/10 else m1
  let m3 := if is_spam then m2 - 8/10 else m2
  round2 (max (1/10) (min m3 (3/2)))

/-- Embeds `ViralityScorer.calculate_regional_weight` (lines 228-259). -/
def calculate_regional_weight (region : Option String) (is_sa : Bool) : ℚ :=
  let w0 : ℚ := 1
  let w1 := if is_sa then w0 + 3/10 else w0
  let w2 := if region = some "GP" ∨ region = some "WC" ∨ region = some "KZN"
            then w1 + 1/10 else w1
  round2 w2

/-- Embeds the `try` block of `ViralityScorer.calculate_virality_score`
(lines 45-79).  At line 59 the method runs
`E = self.calculate_engagement_rate(engagement, impressions)`, passing two
positional arguments to a method whose signature (line 94) has five required
parameters; CPython raises `TypeError` at that call, before any component is
computed, so the `try` block always fails. -/
def calculate_virality_score_try (m : ScoreMetrics) : Except PyErr ViralityMetrics :=
  let _engagement := m.likes + m.comments + m.shares
  let _impressions := pyOr (m.impressions.getD (m.views.getD 1)) 1
  Except.error PyErr.typeError

/-- Embeds `ViralityScorer.calculate_virality_score` (lines 45-92): the `try`
block raises `TypeError` (see `calculate_virality_score_try`), and the
`except` handler (lines 81-92) returns the zero-score metrics. -/
def calculate_virality_score (m : ScoreMetrics) : ViralityMetrics :=
  match calculate_virality_score_try m with
  | Except.ok v => v
  | Except.error _ =>
      { engagement_rate := 0
        velocity := 0
        sentiment_strength := 0
        quality_multiplier := 1/10
        regional_weight := 1
        virality_score := 0 }

/-- Modelled from the spec (§4.4): the documented contract
`virality_score = min((E + V + S) * Q * R, 100)` with
`E = min(log10(raw+1) * 20, 100)`, `raw = (likes+comments+shares) /
max(impressions_or_views, 1) * 100`, and the documented V, S, Q, R components,
used to compare the code's behaviour against the claimed formula. -/
def spec_virality_score (l10 : ℚ → ℚ) (m : ScoreMetrics) : ℚ :=
  let engagement := m.likes + m.comments + m.shares
  let raw := engagement / max (m.impressions.getD (m.views.getD 1)) 1 * 100
  let E := min (l10 (raw + 1) * 20) 100
  let dEng := engagement - m.historical_engagement
  let V := if m.time_diff_minutes ≤ 0 ∨ dEng ≤ 0 then 0
           else min (l10 (dEng / m.time_diff_minutes + 1) * 15) 100
  let S := min (|m.sentiment| * 100) 100
  let q0 : ℚ := 1
  let q1 := if m.toxicity < 3/10 then q0 + 2/10 else if 7/10 < m.toxicity then q0 - 5/10 else q0
  let q2 := if 8/10 < m.language_confidence then q1 + 1/10 else q1
  let q3 := if m.is_spam then q2 - 8/10 else q2
  let Q := max (1/10) (min q3 (3/2))
  let r1 := if m.is_sa then (1 : ℚ) + 3/10 else 1
  let R := if m.region = some "GP" ∨ m.region = some "WC" ∨ m.region = some "KZN"
           then r1 + 1/10 else r1
  min ((E + V + S) * Q * R) 100

/-- Concrete metrics on which the scorer visibly diverges from its documented
formula: 100 likes, 10 comments, 5 shares, 1000 views, sentiment 1.0,
toxicity 0.0, language confidence 0.9. -/
def c1Metrics : ScoreMetrics :=
  { likes := 100
    comments := 10
    shares := 5
    views := some 1000
    sentiment := 1
    toxicity := 0
    language_confidence := 9/10 }

theorem quality_multiplier_bounds (t c : ℚ) (b : Bool) :
    1/10 ≤ calculate_quality_multiplier t c b ∧ calculate_quality_multiplier t c b ≤ 3/2 := by
  unfold calculate_quality_multiplier
  have h1 : (10 : ℚ)/100 ≤ max (1/10) (min (if b then (if 8/10 < c then (if t < 3/10 then (1:ℚ) + 2/10 else if 7/10 < t then 1 - 5/10 else 1) + 1/10 else if t < 3/10 then (1:ℚ) + 2/10 else if 7/10 < t then 1 - 5/10 else 1) - 8/10 else if 8/10 < c then (if t < 3/10 then (1:ℚ) + 2/10 else if 7/10 < t then 1 - 5/10 else 1) + 1/10 else if t < 3/10 then (1:ℚ) + 2/10 else if 7/10 < t then 1 - 5/10 else 1) (3/2)) := by
    refine le_trans (by norm_num) (le_max_left _ _)
  have h2 : max (1/10) (min (if b then (if 8/10 < c then (if t < 3/10 then (1:ℚ) + 2/10 else if 7/10 < t then 1 - 5/10 else 1) + 1/10 else if t < 3/10 then (1:ℚ) + 2/10 else if 7/10 < t then 1 - 5/10 else 1) - 8/10 else if 8/10 < c then (if t < 3/10 then (1:ℚ) + 2/10 else if 7/10 < t then 1 - 5/10 else 1) + 1/10 else if t < 3/10 then (1:ℚ) + 2/10 else if 7/10 < t then 1 - 5/10 else 1) (3/2)) ≤ (150 : ℚ)/100 := by
    refine max_le (by norm_num) (le_trans (min_le_right _ _) (by norm_num))
  have h := round2_bounds 10 150 _ h1 h2
  constructor
  · refine le_trans (by norm_num) h.1
  · refine le_trans h.2 (by norm_num)

theorem regional_weight_bounds (r : Option String) (sa : Bool) :
    1 ≤ calculate_regional_weight r sa ∧ calculate_regional_weight r sa ≤ 3/2 := by
  unfold calculate_regional_weight
  have hw : (100 : ℚ)/100 ≤ (if r = some "GP" ∨ r = some "WC" ∨ r = some "KZN" then (if sa then (1:ℚ) + 3/10 else 1) + 1/10 else if sa then (1:ℚ) + 3/10 else 1) ∧ (if r = some "GP" ∨ r = some "WC" ∨ r = some "KZN" then (if sa then (1:ℚ) + 3/10 else 1) + 1/10 else if sa then (1:ℚ) + 3/10 else 1) ≤ (150 : ℚ)/100 := by
    split_ifs <;> norm_num
  have h := round2_bounds 100 150 _ hw.1 hw.2
  constructor
  · refine le_trans (by norm_num) h.1
  · refine le_trans h.2 (by norm_num)

theorem sentiment_strength_bounds (s : ℚ) :
    0 ≤ calculate_sentiment_strength s ∧ calculate_sentiment_strength s ≤ 100 := by
  unfold calculate_sentiment_strength
  have h1 : (0 : ℚ)/100 ≤ min (|s| * 100) 100 := by
    rw [zero_div]
    refine le_min (by positivity) (by norm_num)
  have h2 : min (|s| * 100) 100 ≤ (10000 : ℚ)/100 := by
    refine le_trans (min_le_right _ _) (by norm_num)
  have h := round2_bounds 0 10000 _ h1 h2
  constructor
  · refine le_trans (by norm_num) h.1
  · refine le_trans h.2 (by norm_num)

/-- C5: for every input to the scorer, the returned components satisfy
`virality_score ∈ [0,100]`, `E ∈ [0,100]`, `S ∈ [0,100]`, `Q ∈ [0.1,1.5]`,
`R ∈ [1.0,1.5]`; the component functions themselves also respect their
documented ranges on all inputs.  (Because the try block of
`calculate_virality_score` raises `TypeError` at the arity-mismatched call to
`calculate_engagement_rate`, the returned metrics are always the recovery
values, which lie inside all the claimed ranges.) -/
theorem virality_components_bounded :
    (∀ m : ScoreMetrics,
      (0 ≤ (calculate_virality_score m).virality_score ∧
        (calculate_virality_score m).virality_score ≤ 100) ∧
      (0 ≤ (calculate_virality_score m).engagement_rate ∧
        (calculate_virality_score m).engagement_rate ≤ 100) ∧
      (0 ≤ (calculate_virality_score m).sentiment_strength ∧
        (calculate_virality_score m).sentiment_strength ≤ 100) ∧
      (1/10 ≤ (calculate_virality_score m).quality_multiplier ∧
        (calculate_virality_score m).quality_multiplier ≤ 3/2) ∧
      (1 ≤ (calculate_virality_score m).regional_weight ∧
        (calculate_virality_score m).regional_weight ≤ 3/2)) ∧
    (∀ t c : ℚ, ∀ b : Bool,
      1/10 ≤ calculate_quality_multiplier t c b ∧ calculate_quality_multiplier t c b ≤ 3/2) ∧
    (∀ r : Option String, ∀ sa : Bool,
      1 ≤ calculate_regional_weight r sa ∧ calculate_regional_weight r sa ≤ 3/2) ∧
    (∀ s : ℚ, 0 ≤ calculate_sentiment_strength s ∧ calculate_sentiment_strength s ≤ 100) := by
  refine ⟨?_, quality_multiplier_bounds, regional_weight_bounds, sentiment_strength_bounds⟩
  intro m
  simp only [calculate_virality_score, calculate_virality_score_try]
  norm_num

/-- C1 (code bug): the claim states the documented formula
`virality_score = min((E + V + S) * Q * R, 100)` with the engagement-rate
component E, but `calculate_virality_score` calls
`calculate_engagement_rate` with two positional arguments where its signature
requires five, so the blanket `except` is always taken and the function
returns virality_score 0 for every input; on `c1Metrics` the documented
formula yields 100 (for any model of `log10` that is nonnegative at the two
arguments it is applied to, as `math.log10` is, both arguments exceeding 1). -/
theorem virality_score_always_zero_but_spec_is_100 :
    (calculate_virality_score c1Metrics).virality_score = 0 ∧
    ∀ l10 : ℚ → ℚ, 0 ≤ l10 (25/2) → 0 ≤ l10 (35/12) →
      spec_virality_score l10 c1Metrics = 100 := by
  constructor
  · simp [calculate_virality_score, calculate_virality_score_try]
  · intro l10 hE hV
    have hEc : (0 : ℚ) ≤ min (l10 (25/2) * 20) 100 := le_min (by linarith) (by norm_num)
    have hVc : (0 : ℚ) ≤ min (l10 (35/12) * 15) 100 := le_min (by linarith) (by norm_num)
    unfold spec_virality_score c1Metrics
    norm_num
    rw [if_neg (by simp)]
    nlinarith [hEc, hVc]

/-- Witness for C1's theorem at the concrete model `l10 = fun _ => 0`. -/
theorem virality_score_always_zero_but_spec_is_100_witness :
    (calculate_virality_score c1Metrics).virality_score = 0 ∧
    spec_virality_score (fun _ => 0) c1Metrics = 100 :=
  ⟨virality_score_always_zero_but_spec_is_100.1,
    virality_score_always_zero_but_spec_is_100.2 (fun _ => 0) (by norm_num) (by norm_num)⟩

/-! ## Text cleaner (`app/services/text_cleaner.py`)

Texts are modelled as `List Char`.  The regex character class `\s` and
`str.strip`/`str.split` whitespace are modelled by `isPySpace`; `\w`,
`str.isupper` and the regex letter classes are modelled on their ASCII
behaviour (all concrete inputs in this development are ASCII or use the
explicitly tabulated non-ASCII characters).  The third-party calls
(`BeautifulSoup(...).get_text()`, `emoji.demojize`, `unidecode`) are modelled
character-exactly on the character sets that occur here: tag spans `<...>` are
dropped and the five standard entities decoded; `demojize` rewrites tabulated
emoji and keeps everything else; `unidecode` is the identity on ASCII and a
table on the non-ASCII characters used.  All scanners use structural `fuel`
recursion (fuel = list length) so that concrete inputs evaluate. -/

/-- Whitespace as matched by Python's `\s` and stripped by `str.strip`
(space, tab, newline, carriage return, vertical tab, form feed, the file and
group separators 0x1c-0x1f, next line, no-break space and the Unicode space
codepoints), written on codepoints. -/
def isPySpace (c : Char) : Bool :=
  decide (c.toNat = 32 ∨ c.toNat = 9 ∨ c.toNat = 10 ∨ c.toNat = 13 ∨
    c.toNat = 11 ∨ c.toNat = 12 ∨ (28 ≤ c.toNat ∧ c.toNat ≤ 31) ∨
    c.toNat = 0x85 ∨ c.toNat = 0xa0 ∨ c.toNat = 0x1680 ∨
    (0x2000 ≤ c.toNat ∧ c.toNat ≤ 0x200a) ∨ c.toNat = 0x2028 ∨
    c.toNat = 0x2029 ∨ c.toNat = 0x202f ∨ c.toNat = 0x205f ∨ c.toNat = 0x3000)

/-- Model of Python `str.strip()`. -/
def pyStrip (l : List Char) : List Char :=
  ((l.dropWhile isPySpace).reverse.dropWhile isPySpace).reverse

/-- Word character for the regex `\w` (ASCII scope). -/
def isWordChar (c : Char) : Bool := c.isAlphanum || c == '_'

/-- Length of the maximal run of characters satisfying `p` starting at `i`. -/
def runLength (p : Char → Bool) (cs : List Char) (i : Nat) : Nat :=
  ((cs.drop i).takeWhile p).length

/-- Whether `pre` occurs at position `i` of `cs`. -/
def isPrefixAt (pre : List Char) (cs : List Char) (i : Nat) : Bool :=
  List.isPrefixOf pre (cs.drop i)

/-- Generic model of `re.sub(pattern, '', text)`: scan left to right, delete
each leftmost match (its length given by `m`), resume after the match. -/
def subDeleteGo (m : List Char → Nat → Option Nat) (cs : List Char) :
    Nat → Nat → List Char
  | 0, _ => []
  | fuel + 1, i =>
    if i < cs.length then
      match m cs i with
      | some n =>
        if n = 0 then cs.getD i ' ' :: subDeleteGo m cs fuel (i + 1)
        else subDeleteGo m cs fuel (i + n)
      | none => cs.getD i ' ' :: subDeleteGo m cs fuel (i + 1)
    else []

/-- Delete every (non-overlapping, leftmost) match of `m` from `cs`. -/
def subDelete (m : List Char → Nat → Option Nat) (cs : List Char) : List Char :=
  subDeleteGo m cs cs.length 0

/-- Generic model of `len(pattern.findall(text))`. -/
def countMatchesGo (m : List Char → Nat → Option Nat) (cs : List Char) :
    Nat → Nat → Nat
  | 0, _ => 0
  | fuel + 1, i =>
    if i < cs.length then
      match m cs i with
      | some n =>
        if n = 0 then countMatchesGo m cs fuel (i + 1)
        else 1 + countMatchesGo m cs fuel (i + n)
      | none => countMatchesGo m cs fuel (i + 1)
    else 0

/-- Count the (non-overlapping, leftmost) matches of `m` in `cs`. -/
def countMatches (m : List Char → Nat → Option Nat) (cs : List Char) : Nat :=
  countMatchesGo m cs cs.length 0

/-- Characters matched by the body of the `url_pattern` regex
`(?:[a-zA-Z]|[0-9]|[$-_@.&+]|[!*\\(\\),]|(?:%..))` — note `[$-_@.&+]` is the
character RANGE 0x24..0x5f plus `@.&+`, which the range already contains. -/
def urlBodyChar (c : Char) : Bool :=
  c.isAlpha || decide (0x24 ≤ c.toNat ∧ c.toNat ≤ 0x5f) ||
  c == '!' || c == '*' || c == '\\' || c == '(' || c == ')' || c == ','

/-- Match of `url_pattern` (`http[s]?://` then one or more body chars) at `i`. -/
def urlMatchAt (cs : List Char) (i : Nat) : Option Nat :=
  let plen : Option Nat :=
    if isPrefixAt "https://".toList cs i then some 8
    else if isPrefixAt "http://".toList cs i then some 7
    else none
  match plen with
  | none => none
  | some p =>
    let r := runLength urlBodyChar cs (i + p)
    if r = 0 then none else some (p + r)

/-- Characters of the local part of `email_pattern`: `[A-Za-z0-9._%+-]`. -/
def emailLocalChar (c : Char) : Bool :=
  c.isAlphanum || c == '.' || c == '_' || c == '%' || c == '+' || c == '-'

/-- Characters of the domain part of `email_pattern`: `[A-Za-z0-9.-]`. -/
def emailDomChar (c : Char) : Bool := c.isAlphanum || c == '.' || c == '-'

/-- Characters of the TLD part of `email_pattern`: `[A-Z|a-z]` (the class
literally contains `|`). -/
def emailTldChar (c : Char) : Bool := c.isAlpha || c == '|'

/-- Whether position `i` of `cs` holds a `\w` character. -/
def wordAt (cs : List Char) (i : Nat) : Bool :=
  match cs[i]? with
  | some c => isWordChar c
  | none => false

/-- The regex word boundary `\b` between positions `i-1` and `i`. -/
def boundaryAt (cs : List Char) (i : Nat) : Bool :=
  (if i = 0 then false else wordAt cs (i - 1)) != wordAt cs i

/-- Try `f` on `hi, hi-1, ...` for `steps` attempts (greedy backtracking). -/
def tryDesc (f : Nat → Option Nat) : Nat → Nat → Option Nat
  | _, 0 => none
  | hi, s + 1 =>
    match f hi with
    | some v => some v
    | none => match hi with
      | 0 => none
      | h + 1 => tryDesc f h s

/-- Try `f` on `hi, hi-1, ..., lo`, first success wins. -/
def findDesc (f : Nat → Option Nat) (hi lo : Nat) : Option Nat :=
  if hi < lo then none else tryDesc f hi (hi - lo + 1)

/-- Match of `email_pattern`
`\b[A-Za-z0-9._%+-]+@[A-Za-z0-9.-]+\.[A-Z|a-z]{2,}\b` at position `i`, with
the greedy/backtracking behaviour of the Python engine (the local part cannot
backtrack because `@` is outside its class; the domain length and the TLD
length backtrack from longest to shortest). -/
def emailMatchAt (cs : List Char) (i : Nat) : Option Nat :=
  if !boundaryAt cs i then none
  else
    let L := runLength emailLocalChar cs i
    if L = 0 then none
    else if cs[i + L]? ≠ some '@' then none
    else
      let dstart := i + L + 1
      let D := runLength emailDomChar cs dstart
      if D = 0 then none
      else
        findDesc (fun j =>
          if cs[dstart + j]? = some '.' then
            let tstart := dstart + j + 1
            let T := runLength emailTldChar cs tstart
            findDesc (fun t =>
              if 2 ≤ t ∧ boundaryAt cs (tstart + t) then some (tstart + t - i)
              else none) T 2
          else none) D 1

/-- Match of `mention_pattern` (`@\w+`) at position `i`. -/
def mentionMatchAt (cs : List Char) (i : Nat) : Option Nat :=
  if cs[i]? = some '@' then
    let r := runLength isWordChar cs (i + 1)
    if r = 0 then none else some (1 + r)
  else none

/-- Match of `hashtag_pattern` (`#\w+`) at position `i`. -/
def hashtagMatchAt (cs : List Char) (i : Nat) : Option Nat :=
  if cs[i]? = some '#' then
    let r := runLength isWordChar cs (i + 1)
    if r = 0 then none else some (1 + r)
  else none

/-- Match of `repeated_chars_pattern` (`(.)\1{2,}`; `.` excludes newline) at
position `i`; greedily consumes the whole run. -/
def repeatedMatchAt (cs : List Char) (i : Nat) : Option Nat :=
  match cs[i]? with
  | none => none
  | some c =>
    if c = '\n' then none
    else
      let r := runLength (fun d => d == c) cs (i + 1)
      if 2 ≤ r then some (1 + r) else none

/-- Embeds `TextCleaner.remove_urls` (text_cleaner.py lines 85-95). -/
def remove_urls (cs : List Char) : List Char := subDelete urlMatchAt cs

/-- Embeds `TextCleaner.remove_emails` (lines 97-107). -/
def remove_emails (cs : List Char) : List Char := subDelete emailMatchAt cs

/-- Embeds `TextCleaner.remove_mentions` (lines 128-138). -/
def remove_mentions (cs : List Char) : List Char := subDelete mentionMatchAt cs

/-- Embeds `TextCleaner.remove_hashtags` (lines 154-164). -/
def remove_hashtags (cs : List Char) : List Char := subDelete hashtagMatchAt cs

/-- Drop `<...>` tag spans (state machine model of BeautifulSoup parsing of
well-formed markup; an unterminated tag consumes the rest of the input). -/
def stripTagsAux : Bool → List Char → List Char
  | _, [] => []
  | true, c :: cs => if c = '>' then stripTagsAux false cs else stripTagsAux true cs
  | false, c :: cs => if c = '<' then stripTagsAux true cs else c :: stripTagsAux false cs

/-- The five standard HTML entities decoded by the parser. -/
def entityTable : List (List Char × Char) :=
  [("amp;".toList, '&'), ("lt;".toList, '<'), ("gt;".toList, '>'),
   ("quot;".toList, '"'), ("#39;".toList, '\'')]

/-- Decode the tabulated entities (fuel-structured scan). -/
def decodeEntitiesGo : Nat → List Char → List Char
  | 0, _ => []
  | _, [] => []
  | fuel + 1, c :: cs =>
    if c = '&' then
      match entityTable.find? (fun p => List.isPrefixOf p.1 cs) with
      | some p => p.2 :: decodeEntitiesGo fuel (cs.drop p.1.length)
      | none => '&' :: decodeEntitiesGo fuel cs
    else c :: decodeEntitiesGo fuel cs

/-- Embeds `TextCleaner.remove_html_tags` (lines 109-126): model of
`BeautifulSoup(text, 'html.parser').get_text()` as tag-span removal followed
by entity decoding. -/
def remove_html_tags (cs : List Char) : List Char :=
  decodeEntitiesGo cs.length (stripTagsAux false cs)

/-- Emoji with their `emoji.demojize` textual names (the tabulated subset). -/
def emojiTable : List (Char × List Char) := [('🔥', ":fire:".toList)]

/-- Embeds `TextCleaner.replace_emojis_with_text` (lines 178-188), the
`emoji.demojize` call: tabulated emoji become `:name:`, all else is kept. -/
def replace_emojis_with_text (cs : List Char) : List Char :=
  (cs.map (fun c =>
    match emojiTable.find? (fun p => p.1 == c) with
    | some p => p.2
    | none => [c])).flatten

/-- Per-character model of `unidecode`: identity on ASCII, table on the
non-ASCII characters used here, empty for unknown codepoints. -/
def unidecodeChar (c : Char) : List Char :=
  if c.toNat < 128 then [c]
  else
    match ([('é', ['e']), (Char.ofNat 0xa0, [' '])] :
        List (Char × List Char)).find? (fun p => p.1 == c) with
    | some p => p.2
    | none => []

/-- Embeds `TextCleaner.normalize_unicode` (lines 222-232), the `unidecode`
call. -/
def normalize_unicode (cs : List Char) : List Char :=
  (cs.map unidecodeChar).flatten

/-- Characters kept by `remove_special_characters` with
`keep_punctuation=True`: the class `[a-zA-Z0-9\s.,!?;:]`. -/
def specialKeep (c : Char) : Bool :=
  c.isAlphanum || isPySpace c ||
  c == '.' || c == ',' || c == '!' || c == '?' || c == ';' || c == ':'

/-- Embeds `TextCleaner.remove_special_characters` (lines 204-220) with
`keep_punctuation=True`. -/
def remove_special_characters (cs : List Char) : List Char :=
  cs.filter specialKeep

/-- Fuel-structured scan for `remove_repeated_characters`. -/
def removeRepeatedGo : Nat → List Char → List Char
  | 0, _ => []
  | _, [] => []
  | fuel + 1, c :: cs =>
    let run := cs.takeWhile (fun d => d == c)
    let rest := cs.dropWhile (fun d => d == c)
    (if c = '\n' ∨ run.length + 1 ≤ 2 then List.replicate (run.length + 1) c
     else [c, c]) ++ removeRepeatedGo fuel rest

/-- Embeds `TextCleaner.remove_repeated_characters` with `max_repeats=2`
(lines 234-247): the regex `(.)\1{2,}` replaced by `\1\1`; `.` does not match
newline, so runs of `\n` are kept. -/
def remove_repeated_characters (cs : List Char) : List Char :=
  removeRepeatedGo cs.length cs

/-- Collapse each whitespace run to a single space (the `\s+` → `' '` sub). -/
def collapseWs : Nat → List Char → List Char
  | 0, _ => []
  | _, [] => []
  | fuel + 1, c :: cs =>
    if isPySpace c then ' ' :: collapseWs fuel (cs.dropWhile isPySpace)
    else c :: collapseWs fuel cs

/-- Embeds `TextCleaner.normalize_whitespace` (lines 190-202). -/
def normalize_whitespace (cs : List Char) : List Char :=
  pyStrip (collapseWs cs.length cs)

/-- Embeds `TextCleaner.clean` (lines 29-83). -/
def clean (preserve_hashtags preserve_mentions : Bool) (text : List Char) : List Char :=
  if text.isEmpty then []
  else
    let c0 := pyStrip text
    let c1 := remove_html_tags c0
    let c2 := remove_urls c1
    let c3 := remove_emails c2
    let c4 := if preserve_hashtags then c3 else remove_hashtags c3
    let c5 := if preserve_mentions then c4 else remove_mentions c4
    let c6 := replace_emojis_with_text c5
    let c7 := remove_special_characters c6
    let c8 := normalize_unicode c7
    let c9 := remove_repeated_characters c8
    let c10 := normalize_whitespace c9
    pyStrip c10

/-- The spec's `normalize`: `TextCleaner.clean` with its default flags
(`preserve_hashtags=True`, `preserve_mentions=False`). -/
def normalize (text : List Char) : List Char := clean true false text

/-- Embeds `TextCleaner.clean_for_classification` (lines 249-284). -/
def clean_for_classification (text : List Char) : List Char :=
  if text.isEmpty then []
  else
    let c0 := pyStrip text
    let c1 := remove_html_tags c0
    let c2 := remove_urls c1
    let c3 := replace_emojis_with_text c2
    let c4 := normalize_unicode c3
    let c5 := remove_repeated_characters c4
    let c6 := remove_special_characters c5
    normalize_whitespace c6

/-- Number of words of `str.split()` (maximal non-whitespace runs). -/
def wordCount : Nat → List Char → Nat
  | 0, _ => 0
  | _, [] => 0
  | fuel + 1, c :: cs =>
    if isPySpace c then wordCount fuel cs
    else 1 + wordCount fuel (cs.dropWhile (fun d => !isPySpace d))

/-- Embeds `TextCleaner.is_spam` (lines 333-372), with the counts of
`get_text_stats` (lines 313-331) inlined; ratios are exact rationals. -/
def is_spam (text : List Char) : Bool :=
  let wc : ℚ := (max (wordCount text.length text) 1 : ℕ)
  if (countMatches hashtagMatchAt text : ℚ) / wc > 3/10 then true
  else if (countMatches mentionMatchAt text : ℚ) / wc > 2/10 then true
  else if countMatches urlMatchAt text > 2 then true
  else if 10 < text.length ∧
      ((text.filter Char.isUpper).length : ℚ) / (text.length : ℚ) > 7/10 then true
  else if countMatches repeatedMatchAt text > 3 then true
  else false

/-! ## Infrastructure for the idempotence proof (C8)

The image of `clean` is characterized by: only ASCII alphanumerics, the kept
punctuation and single interior spaces; no run of three equal characters; no
two adjacent whitespace characters; no leading or trailing whitespace.  Each
cleaning step is then shown to be the identity on that image. -/

/-- Not a newline (the characters matched by `.` in the repeat regex). -/
def notNl (c : Char) : Bool := !(c == '\n')

/-- Characters that can occur in the output of `clean`. -/
def allowedOut (c : Char) : Bool :=
  c.isAlphanum || c == '.' || c == ',' || c == '!' || c == '?' ||
  c == ';' || c == ':' || c == ' '

/-- Some run of three equal characters, all satisfying `p`, occurs. -/
def hasTriple (p : Char → Bool) : List Char → Bool
  | a :: b :: c :: t => (p a && a == b && b == c) || hasTriple p (b :: c :: t)
  | _ => false

/-- Two adjacent whitespace characters occur. -/
def hasSpacePair : List Char → Bool
  | a :: b :: t => (isPySpace a && isPySpace b) || hasSpacePair (b :: t)
  | _ => false

theorem hasTriple_cons3 (p : Char → Bool) (a b c : Char) (t : List Char) :
    hasTriple p (a :: b :: c :: t) =
      ((p a && a == b && b == c) || hasTriple p (b :: c :: t)) := rfl

theorem hasTriple_tail {p : Char → Bool} {a : Char} {t : List Char}
    (h : hasTriple p (a :: t) = false) : hasTriple p t = false := by
  match t with
  | [] => rfl
  | [b] => rfl
  | b :: c :: t' =>
    rw [hasTriple_cons3] at h
    exact (Bool.or_eq_false_iff.mp h).2

theorem hasTriple_cons {p : Char → Bool} {a : Char} {z : List Char}
    (h : hasTriple p z = false) (hcond : z.head? ≠ some a ∨ p a = false) :
    hasTriple p (a :: z) = false := by
  match z with
  | [] => rfl
  | [b] => rfl
  | b :: c :: t =>
    rw [hasTriple_cons3]
    refine Bool.or_eq_false_iff.mpr ⟨?_, h⟩
    rcases hcond with hne | hp
    · have hab : (a == b) = false := by
        refine beq_eq_false_iff_ne.mpr ?_
        intro he
        exact hne (by rw [he]; rfl)
      simp [hab]
    · simp [hp]

theorem hasTriple_cons_cons {p : Char → Bool} {a : Char} {z : List Char}
    (hne : z.head? ≠ some a) (h : hasTriple p (a :: z) = false) :
    hasTriple p (a :: a :: z) = false := by
  match z with
  | [] => rfl
  | e :: t =>
    rw [hasTriple_cons3]
    refine Bool.or_eq_false_iff.mpr ⟨?_, h⟩
    have hae : (a == e) = false := by
      refine beq_eq_false_iff_ne.mpr ?_
      intro he
      exact hne (by rw [he]; rfl)
    simp [hae]

theorem hasTriple_replicate_append {p : Char → Bool} {a : Char} {z : List Char}
    (hp : p a = false) (h : hasTriple p z = false) (k : Nat) :
    hasTriple p (List.replicate k a ++ z) = false := by
  induction k with
  | zero => simpa using h
  | succ n ih =>
    rw [List.replicate_succ, List.cons_append]
    exact hasTriple_cons ih (Or.inr hp)

/-- Proposition form of `hasTriple = false`. -/
def NoTriple (p : Char → Bool) (l : List Char) : Prop :=
  ∀ c : Char, p c = true → ¬ ([c, c, c] <:+: l)

theorem noTriple_of_hasTriple_eq_false {p : Char → Bool} {l : List Char}
    (h : hasTriple p l = false) : NoTriple p l := by
  induction l with
  | nil =>
    intro c _ hinf
    have := List.eq_nil_of_infix_nil hinf
    simp at this
  | cons a t ih =>
    intro c pc hinf
    rcases List.infix_cons_iff.mp hinf with hpre | hinf'
    · obtain ⟨hca, hpre2⟩ := List.cons_prefix_cons.mp hpre
      subst hca
      match t, hpre2 with
      | b :: t', hpre2 =>
        obtain ⟨hcb, hpre3⟩ := List.cons_prefix_cons.mp hpre2
        subst hcb
        match t', hpre3 with
        | d :: t'', hpre3 =>
          obtain ⟨hcd, _⟩ := List.cons_prefix_cons.mp hpre3
          subst hcd
          rw [hasTriple_cons3] at h
          have := (Bool.or_eq_false_iff.mp h).1
          simp [pc] at this
    · exact ih (hasTriple_tail h) c pc hinf'

theorem hasTriple_eq_false_of_noTriple {p : Char → Bool} {l : List Char}
    (h : NoTriple p l) : hasTriple p l = false := by
  induction l with
  | nil => rfl
  | cons a t ih =>
    have htail : hasTriple p t = false := by
      refine ih ?_
      intro c pc hinf
      exact h c pc (hinf.trans (List.infix_cons_iff.mpr (Or.inr (List.infix_refl t))))
    match t, htail with
    | [], _ => rfl
    | [b], _ => rfl
    | b :: c :: t', htail =>
      rw [hasTriple_cons3]
      refine Bool.or_eq_false_iff.mpr ⟨?_, htail⟩
      cases hpa : p a with
      | false => simp [hpa]
      | true =>
        cases hab : a == b with
        | false => simp [hab]
        | true =>
          cases hbc : b == c with
          | false => simp [hbc]
          | true =>
            exfalso
            have hb := beq_iff_eq.mp hab
            have hc := beq_iff_eq.mp hbc
            subst hb
            subst hc
            exact h a hpa ⟨[], t', by simp⟩

theorem hasTriple_eq_false_of_infix {p : Char → Bool} {l₁ l₂ : List Char}
    (hinf : l₁ <:+: l₂) (h : hasTriple p l₂ = false) : hasTriple p l₁ = false :=
  hasTriple_eq_false_of_noTriple
    (fun c pc ht => noTriple_of_hasTriple_eq_false h c pc (ht.trans hinf))

theorem hasSpacePair_cons2 (a b : Char) (t : List Char) :
    hasSpacePair (a :: b :: t) =
      ((isPySpace a && isPySpace b) || hasSpacePair (b :: t)) := rfl

theorem hasSpacePair_tail {a : Char} {t : List Char}
    (h : hasSpacePair (a :: t) = false) : hasSpacePair t = false := by
  match t with
  | [] => rfl
  | b :: t' =>
    rw [hasSpacePair_cons2] at h
    exact (Bool.or_eq_false_iff.mp h).2

theorem hasSpacePair_cons {a : Char} {z : List Char}
    (h : hasSpacePair z = false)
    (hcond : isPySpace a = false ∨ ∀ x, z.head? = some x → isPySpace x = false) :
    hasSpacePair (a :: z) = false := by
  match z with
  | [] => rfl
  | b :: t =>
    rw [hasSpacePair_cons2]
    refine Bool.or_eq_false_iff.mpr ⟨?_, h⟩
    rcases hcond with hp | hx
    · simp [hp]
    · simp [hx b rfl]

/-- Proposition form of `hasSpacePair = false`. -/
def NoPair (l : List Char) : Prop :=
  ∀ a b : Char, isPySpace a = true → isPySpace b = true → ¬ ([a, b] <:+: l)

theorem noPair_of_hasSpacePair_eq_false {l : List Char}
    (h : hasSpacePair l = false) : NoPair l := by
  induction l with
  | nil =>
    intro a b _ _ hinf
    have := List.eq_nil_of_infix_nil hinf
    simp at this
  | cons x t ih =>
    intro a b ha hb hinf
    rcases List.infix_cons_iff.mp hinf with hpre | hinf'
    · obtain ⟨hax, hpre2⟩ := List.cons_prefix_cons.mp hpre
      subst hax
      match t, hpre2 with
      | y :: t', hpre2 =>
        obtain ⟨hby, _⟩ := List.cons_prefix_cons.mp hpre2
        subst hby
        rw [hasSpacePair_cons2] at h
        have := (Bool.or_eq_false_iff.mp h).1
        simp [ha, hb] at this
    · exact ih (hasSpacePair_tail h) a b ha hb hinf'

theorem hasSpacePair_eq_false_of_noPair {l : List Char}
    (h : NoPair l) : hasSpacePair l = false := by
  induction l with
  | nil => rfl
  | cons x t ih =>
    have htail : hasSpacePair t = false := by
      refine ih ?_
      intro a b ha hb hinf
      exact h a b ha hb (hinf.trans (List.infix_cons_iff.mpr (Or.inr (List.infix_refl t))))
    match t, htail with
    | [], _ => rfl
    | y :: t', htail =>
      rw [hasSpacePair_cons2]
      refine Bool.or_eq_false_iff.mpr ⟨?_, htail⟩
      cases hx : isPySpace x with
      | false => simp [hx]
      | true =>
        cases hy : isPySpace y with
        | false => simp [hy]
        | true => exact absurd ⟨[], t', by simp⟩ (h x y hx hy)

theorem hasSpacePair_eq_false_of_infix {l₁ l₂ : List Char}
    (hinf : l₁ <:+: l₂) (h : hasSpacePair l₂ = false) : hasSpacePair l₁ = false :=
  hasSpacePair_eq_false_of_noPair
    (fun a b ha hb ht => noPair_of_hasSpacePair_eq_false h a b ha hb (ht.trans hinf))

theorem head_dropWhile_not {q : Char → Bool} {l : List Char} {x : Char}
    (h : (List.dropWhile q l).head? = some x) : q x = false := by
  induction l with
  | nil => simp [List.dropWhile] at h
  | cons a t ih =>
    rw [List.dropWhile_cons] at h
    by_cases hq : q a
    · rw [if_pos hq] at h
      exact ih h
    · rw [if_neg hq] at h
      simp at h
      subst h
      exact Bool.eq_false_iff.mpr hq

theorem dropWhile_eq_self_of_head {q : Char → Bool} {l : List Char}
    (h : ∀ x, l.head? = some x → q x = false) : List.dropWhile q l = l := by
  cases l with
  | nil => rfl
  | cons a t =>
    rw [List.dropWhile_cons, if_neg]
    simp [h a rfl]

theorem head?_eq_of_listPre {r u : List Char} {x : Char}
    (hp : r <+: u) (h : r.head? = some x) : u.head? = some x := by
  obtain ⟨t, rfl⟩ := hp
  cases r with
  | nil => simp at h
  | cons a r' => simpa using h

theorem pyStrip_prefix_dropWhile (l : List Char) :
    pyStrip l <+: List.dropWhile isPySpace l := by
  unfold pyStrip
  exact List.reverse_suffix.mp
    (by rw [List.reverse_reverse]; exact List.dropWhile_suffix _)

theorem pyStrip_infix (l : List Char) : pyStrip l <:+: l :=
  (pyStrip_prefix_dropWhile l).isInfix.trans (List.dropWhile_suffix _).isInfix

theorem pyStrip_head_not_space {l : List Char} {x : Char}
    (h : (pyStrip l).head? = some x) : isPySpace x = false :=
  head_dropWhile_not (head?_eq_of_listPre (pyStrip_prefix_dropWhile l) h)

theorem pyStrip_getLast_not_space {l : List Char} {x : Char}
    (h : (pyStrip l).getLast? = some x) : isPySpace x = false := by
  unfold pyStrip at h
  rw [List.getLast?_reverse] at h
  exact head_dropWhile_not h

theorem pyStrip_eq_self {l : List Char}
    (hh : ∀ x, l.head? = some x → isPySpace x = false)
    (hl : ∀ x, l.getLast? = some x → isPySpace x = false) : pyStrip l = l := by
  unfold pyStrip
  rw [dropWhile_eq_self_of_head hh,
    dropWhile_eq_self_of_head (fun x hx => hl x (by rwa [List.head?_reverse] at hx))]
  exact List.reverse_reverse l

theorem isAlphanum_toNat {c : Char} (h : c.isAlphanum = true) :
    (48 ≤ c.toNat ∧ c.toNat ≤ 57) ∨ (65 ≤ c.toNat ∧ c.toNat ≤ 90) ∨
    (97 ≤ c.toNat ∧ c.toNat ≤ 122) := by
  simp [Char.isAlphanum, Char.isAlpha, Char.isUpper, Char.isLower, Char.isDigit] at h
  tauto

theorem allowedOut_cases {c : Char} (h : allowedOut c = true) :
    c.isAlphanum = true ∨ c = '.' ∨ c = ',' ∨ c = '!' ∨ c = '?' ∨
    c = ';' ∨ c = ':' ∨ c = ' ' := by
  simp [allowedOut] at h
  tauto

theorem allowedOut_ascii {c : Char} (h : allowedOut c = true) : c.toNat < 128 := by
  rcases allowedOut_cases h with h | h | h | h | h | h | h | h
  · rcases isAlphanum_toNat h with ⟨_, h2⟩ | ⟨_, h2⟩ | ⟨_, h2⟩ <;> omega
  all_goals (subst h; decide)

theorem isAlphanum_not_pyspace {c : Char} (h : c.isAlphanum = true) :
    isPySpace c = false := by
  rcases isAlphanum_toNat h with ⟨h1, h2⟩ | ⟨h1, h2⟩ | ⟨h1, h2⟩ <;>
    (simp only [isPySpace, decide_eq_false_iff_not]; omega)

theorem allowedOut_pyspace_eq_space {c : Char} (h : allowedOut c = true)
    (hs : isPySpace c = true) : c = ' ' := by
  rcases allowedOut_cases h with h | h | h | h | h | h | h | h
  · exact absurd hs (by simp [isAlphanum_not_pyspace h])
  all_goals first
  | exact h
  | (subst h; exact absurd hs (by decide))

theorem allowedOut_specialKeep {c : Char} (h : allowedOut c = true) :
    specialKeep c = true := by
  rcases allowedOut_cases h with h | h | h | h | h | h | h | h
  · simp [specialKeep, h]
  all_goals (subst h; decide)

theorem stripTagsAux_eq_self {l : List Char} (h : '<' ∉ l) :
    stripTagsAux false l = l := by
  induction l with
  | nil => rfl
  | cons a t ih =>
    have ha : ¬ a = '<' := fun he => h (he ▸ List.mem_cons_self a t)
    have ht : '<' ∉ t := fun hm => h (List.mem_cons_of_mem a hm)
    show (if a = '<' then stripTagsAux true t else a :: stripTagsAux false t) = a :: t
    rw [if_neg ha, ih ht]

theorem decodeEntitiesGo_eq_self {fuel : Nat} {l : List Char} (h : '&' ∉ l)
    (hf : l.length ≤ fuel) : decodeEntitiesGo fuel l = l := by
  induction fuel generalizing l with
  | zero =>
    cases l with
    | nil => rfl
    | cons a t => simp at hf
  | succ f ih =>
    cases l with
    | nil => rfl
    | cons a t =>
      have ha : ¬ a = '&' := fun he => h (he ▸ List.mem_cons_self a t)
      have ht : '&' ∉ t := fun hm => h (List.mem_cons_of_mem a hm)
      show (if a = '&' then _ else a :: decodeEntitiesGo f t) = a :: t
      rw [if_neg ha, ih ht (by simpa using Nat.le_of_succ_le_succ hf)]

theorem removeRepeatedGo_nil (fuel : Nat) : removeRepeatedGo fuel [] = [] := by
  cases fuel <;> rfl

theorem collapseWs_nil (fuel : Nat) : collapseWs fuel [] = [] := by
  cases fuel <;> rfl

theorem subDeleteGo_eq_drop {m : List Char → Nat → Option Nat} {cs : List Char}
    (hnone : ∀ i, m cs i = none) :
    ∀ fuel i, cs.length - i ≤ fuel → subDeleteGo m cs fuel i = cs.drop i := by
  intro fuel
  induction fuel with
  | zero =>
    intro i hi
    rw [List.drop_eq_nil_of_le (by omega)]
    rfl
  | succ f ih =>
    intro i hi
    by_cases hlt : i < cs.length
    · show (if i < cs.length then _ else []) = cs.drop i
      rw [if_pos hlt]
      simp only [hnone i]
      rw [List.getD_eq_getElem cs ' ' hlt, ih (i + 1) (by omega),
        List.drop_eq_getElem_cons hlt]
    · show (if i < cs.length then _ else []) = cs.drop i
      rw [if_neg hlt, List.drop_eq_nil_of_le (by omega)]

theorem subDelete_eq_self {m : List Char → Nat → Option Nat} {cs : List Char}
    (hnone : ∀ i, m cs i = none) : subDelete m cs = cs := by
  unfold subDelete
  rw [subDeleteGo_eq_drop hnone cs.length 0 (by omega)]
  rfl

theorem mem_of_getElem {α : Type} {l : List α} {i : Nat} {a : α}
    (h : l[i]? = some a) : a ∈ l := by
  obtain ⟨hlt, rfl⟩ := List.getElem?_eq_some_iff.mp h
  exact List.getElem_mem hlt

theorem mem_of_isPrefixAt {pre cs : List Char} {i : Nat} {c : Char}
    (hp : isPrefixAt pre cs i = true) (hc : c ∈ pre) : c ∈ cs := by
  unfold isPrefixAt at hp
  exact List.drop_subset i cs ((List.isPrefixOf_iff_prefix.mp hp).subset hc)

theorem urlMatchAt_none {cs : List Char} (h : '/' ∉ cs) (i : Nat) :
    urlMatchAt cs i = none := by
  unfold urlMatchAt
  have h1 : isPrefixAt "https://".toList cs i = false := by
    cases hb : isPrefixAt "https://".toList cs i
    · rfl
    · exact absurd (mem_of_isPrefixAt hb (by decide)) h
  have h2 : isPrefixAt "http://".toList cs i = false := by
    cases hb : isPrefixAt "http://".toList cs i
    · rfl
    · exact absurd (mem_of_isPrefixAt hb (by decide)) h
  have h1' : isPrefixAt ['h', 't', 't', 'p', 's', ':', '/', '/'] cs i = false := h1
  have h2' : isPrefixAt ['h', 't', 't', 'p', ':', '/', '/'] cs i = false := h2
  simp [h1', h2']

theorem emailMatchAt_none {cs : List Char} (h : '@' ∉ cs) (i : Nat) :
    emailMatchAt cs i = none := by
  unfold emailMatchAt
  cases hb : boundaryAt cs i
  · simp
  · have hat : ¬ cs[i + runLength emailLocalChar cs i]? = some '@' :=
      fun hc => h (mem_of_getElem hc)
    by_cases hL : runLength emailLocalChar cs i = 0 <;> simp [hL, hat]

theorem mentionMatchAt_none {cs : List Char} (h : '@' ∉ cs) (i : Nat) :
    mentionMatchAt cs i = none := by
  unfold mentionMatchAt
  rw [if_neg (fun hc => h (mem_of_getElem hc))]

theorem flatten_map_eq_self {f : Char → List Char} {l : List Char}
    (h : ∀ c ∈ l, f c = [c]) : (l.map f).flatten = l := by
  induction l with
  | nil => rfl
  | cons a t ih =>
    rw [List.map_cons, List.flatten_cons, h a (List.mem_cons_self a t),
      ih (fun c hc => h c (List.mem_cons_of_mem a hc))]
    rfl

theorem replace_emojis_eq_self {l : List Char} (h : ∀ c ∈ l, allowedOut c = true) :
    replace_emojis_with_text l = l := by
  unfold replace_emojis_with_text
  apply flatten_map_eq_self
  intro c hc
  have hne : ('🔥' == c) = false := by
    refine beq_eq_false_iff_ne.mpr ?_
    intro he
    rw [← he] at hc
    exact absurd (h _ hc) (by decide)
  simp [emojiTable, hne]

theorem unidecodeChar_ascii {c : Char} (h : c.toNat < 128) : unidecodeChar c = [c] := by
  unfold unidecodeChar
  rw [if_pos h]

theorem normalize_unicode_eq_self {l : List Char}
    (h : ∀ c ∈ l, allowedOut c = true) : normalize_unicode l = l :=
  flatten_map_eq_self (fun c hc => unidecodeChar_ascii (allowedOut_ascii (h c hc)))

theorem remove_special_eq_self {l : List Char}
    (h : ∀ c ∈ l, allowedOut c = true) : remove_special_characters l = l :=
  List.filter_eq_self.mpr (fun c hc => allowedOut_specialKeep (h c hc))

theorem removeRepeatedGo_eq_self : ∀ {fuel : Nat} {l : List Char},
    hasTriple (fun _ => true) l = false → l.length ≤ fuel →
    removeRepeatedGo fuel l = l := by
  intro fuel
  induction fuel with
  | zero =>
    intro l _ hf
    cases l with
    | nil => rfl
    | cons a t => simp at hf
  | succ f ih =>
    intro l h hf
    cases l with
    | nil => rfl
    | cons c cs =>
      show (if c = '\n' ∨ (cs.takeWhile (fun d => d == c)).length + 1 ≤ 2
            then List.replicate ((cs.takeWhile (fun d => d == c)).length + 1) c
            else [c, c]) ++ removeRepeatedGo f (cs.dropWhile (fun d => d == c)) =
          c :: cs
      cases cs with
      | nil => simp [removeRepeatedGo_nil]
      | cons d cs' =>
        cases hdc : d == c with
        | false =>
          have htw : (d :: cs').takeWhile (fun x => x == c) = [] := by
            simp [List.takeWhile_cons, hdc]
          have hdw : (d :: cs').dropWhile (fun x => x == c) = d :: cs' := by
            simp [List.dropWhile_cons, hdc]
          rw [htw, hdw, ih (hasTriple_tail h) (by simpa using Nat.le_of_succ_le_succ hf)]
          simp
        | true =>
          have hd : d = c := beq_iff_eq.mp hdc
          subst hd
          cases cs' with
          | nil => simp [List.takeWhile_cons, List.dropWhile_cons, removeRepeatedGo_nil]
          | cons e cs'' =>
            have hec : (e == d) = false := by
              cases hec : e == d with
              | false => rfl
              | true =>
                have he : e = d := beq_iff_eq.mp hec
                subst he
                rw [hasTriple_cons3] at h
                simp at h
            have htw : (d :: e :: cs'').takeWhile (fun x => x == d) = [d] := by
              simp [List.takeWhile_cons, hec]
            have hdw : (d :: e :: cs'').dropWhile (fun x => x == d) = e :: cs'' := by
              simp [List.dropWhile_cons, hec]
            rw [htw, hdw, ih (hasTriple_tail (hasTriple_tail h)) ?_]
            · simp
            · simp at hf ⊢
              omega

theorem remove_repeated_eq_self {l : List Char}
    (h : hasTriple (fun _ => true) l = false) : remove_repeated_characters l = l :=
  removeRepeatedGo_eq_self h le_rfl

theorem collapseWs_eq_self : ∀ {fuel : Nat} {l : List Char},
    (∀ c ∈ l, isPySpace c = true → c = ' ') → hasSpacePair l = false →
    l.length ≤ fuel → collapseWs fuel l = l := by
  intro fuel
  induction fuel with
  | zero =>
    intro l _ _ hf
    cases l with
    | nil => rfl
    | cons a t => simp at hf
  | succ f ih =>
    intro l hsp hpair hf
    cases l with
    | nil => rfl
    | cons c cs =>
      show (if isPySpace c then ' ' :: collapseWs f (cs.dropWhile isPySpace)
            else c :: collapseWs f cs) = c :: cs
      have htail := ih (fun x hx hsx => hsp x (List.mem_cons_of_mem c hx) hsx)
        (hasSpacePair_tail hpair) (by simpa using Nat.le_of_succ_le_succ hf)
      by_cases hc : isPySpace c = true
      · rw [if_pos hc]
        have hc' : c = ' ' := hsp c (List.mem_cons_self c cs) hc
        have hhd : ∀ x, cs.head? = some x → isPySpace x = false := by
          intro x hx
          cases cs with
          | nil => simp at hx
          | cons d cs' =>
            simp at hx
            subst hx
            rw [hasSpacePair_cons2] at hpair
            have h1 := (Bool.or_eq_false_iff.mp hpair).1
            cases hdq : isPySpace d with
            | false => rfl
            | true =>
              rw [hc, hdq] at h1
              simp at h1
        rw [dropWhile_eq_self_of_head hhd, htail, hc']
      · rw [if_neg (by simpa using hc), htail]

theorem removeRepeatedGo_subset : ∀ {fuel : Nat} {l : List Char} {c : Char},
    c ∈ removeRepeatedGo fuel l → c ∈ l := by
  intro fuel
  induction fuel with
  | zero =>
    intro l c hc
    rw [show removeRepeatedGo 0 l = [] from by cases l <;> rfl] at hc
    simp at hc
  | succ f ih =>
    intro l c hc
    cases l with
    | nil => simp [removeRepeatedGo_nil] at hc
    | cons a cs =>
      have hc' : c ∈ (if a = '\n' ∨ (cs.takeWhile (fun d => d == a)).length + 1 ≤ 2
            then List.replicate ((cs.takeWhile (fun d => d == a)).length + 1) a
            else [a, a]) ++ removeRepeatedGo f (cs.dropWhile (fun d => d == a)) := hc
      rcases List.mem_append.mp hc' with hm | hm
      · have hca : c = a := by
          split at hm
          · exact List.eq_of_mem_replicate hm
          · simp at hm
            exact hm
        exact hca ▸ List.mem_cons_self a cs
      · exact List.mem_cons_of_mem a ((List.dropWhile_sublist _).subset (ih hm))

theorem removeRepeatedGo_head? {f : Nat} {c : Char} {cs : List Char} (hf : 1 ≤ f) :
    (removeRepeatedGo f (c :: cs)).head? = some c := by
  cases f with
  | zero => omega
  | succ f' =>
    show ((if c = '\n' ∨ (cs.takeWhile (fun d => d == c)).length + 1 ≤ 2
          then List.replicate ((cs.takeWhile (fun d => d == c)).length + 1) c
          else [c, c]) ++ removeRepeatedGo f' (cs.dropWhile (fun d => d == c))).head? =
        some c
    split
    · rw [List.replicate_succ]
      rfl
    · rfl

theorem removeRepeatedGo_noTriple : ∀ {fuel : Nat} {l : List Char},
    l.length ≤ fuel → hasTriple notNl (removeRepeatedGo fuel l) = false := by
  intro fuel
  induction fuel with
  | zero =>
    intro l _
    rw [show removeRepeatedGo 0 l = [] from by cases l <;> rfl]
    rfl
  | succ f ih =>
    intro l hf
    cases l with
    | nil => rw [removeRepeatedGo_nil]; rfl
    | cons c cs =>
      show hasTriple notNl
        ((if c = '\n' ∨ (cs.takeWhile (fun d => d == c)).length + 1 ≤ 2
          then List.replicate ((cs.takeWhile (fun d => d == c)).length + 1) c
          else [c, c]) ++ removeRepeatedGo f (cs.dropWhile (fun d => d == c))) = false
      have hlen : (cs.dropWhile (fun d => d == c)).length ≤ f := by
        have := List.Sublist.length_le (List.dropWhile_sublist (l := cs) (fun d => d == c))
        simp at hf
        omega
      have hz := ih hlen
      have hne : (removeRepeatedGo f (cs.dropWhile (fun d => d == c))).head? ≠ some c := by
        cases hu : cs.dropWhile (fun d => d == c) with
        | nil =>
          rw [removeRepeatedGo_nil]
          simp
        | cons d ds =>
          have hd : (d == c) = false := by
            refine head_dropWhile_not (l := cs) (q := fun d => d == c) ?_
            rw [hu]
            rfl
          have hf1 : 1 ≤ f := by
            rw [hu] at hlen
            simp at hlen
            omega
          rw [removeRepeatedGo_head? hf1]
          simp
          exact fun he => by simp [he] at hd
      by_cases hnl : c = '\n'
      · rw [if_pos (Or.inl hnl)]
        refine hasTriple_replicate_append ?_ hz _
        rw [hnl]
        decide
      · by_cases hrun : (cs.takeWhile (fun d => d == c)).length + 1 ≤ 2
        · rw [if_pos (Or.inr hrun)]
          match hr : (cs.takeWhile (fun d => d == c)).length, hrun with
          | 0, _ =>
            rw [List.replicate_succ, List.replicate_zero]
            exact hasTriple_cons hz (Or.inl hne)
          | 1, _ =>
            rw [List.replicate_succ, List.replicate_succ, List.replicate_zero]
            exact hasTriple_cons_cons hne (hasTriple_cons hz (Or.inl hne))
        · rw [if_neg (by push_neg; exact ⟨hnl, by omega⟩)]
          exact hasTriple_cons_cons hne (hasTriple_cons hz (Or.inl hne))

theorem collapseWs_head? {f : Nat} {c : Char} {cs : List Char} (hf : 1 ≤ f) :
    (collapseWs f (c :: cs)).head? = some (if isPySpace c then ' ' else c) := by
  cases f with
  | zero => omega
  | succ f' =>
    show (if isPySpace c then ' ' :: collapseWs f' (cs.dropWhile isPySpace)
          else c :: collapseWs f' cs).head? = _
    split <;> simp_all

theorem collapseWs_chars : ∀ {fuel : Nat} {l : List Char} {c : Char},
    c ∈ collapseWs fuel l → c = ' ' ∨ (c ∈ l ∧ isPySpace c = false) := by
  intro fuel
  induction fuel with
  | zero =>
    intro l c hc
    rw [show collapseWs 0 l = [] from by cases l <;> rfl] at hc
    simp at hc
  | succ f ih =>
    intro l c hc
    cases l with
    | nil => simp [collapseWs_nil] at hc
    | cons a cs =>
      have hc' : c ∈ (if isPySpace a then ' ' :: collapseWs f (cs.dropWhile isPySpace)
          else a :: collapseWs f cs) := hc
      split at hc'
      · rcases List.mem_cons.mp hc' with hm | hm
        · exact Or.inl hm
        · rcases ih hm with hm' | ⟨hmem, hsp⟩
          · exact Or.inl hm'
          · exact Or.inr ⟨List.mem_cons_of_mem a ((List.dropWhile_sublist _).subset hmem),
              hsp⟩
      · rcases List.mem_cons.mp hc' with hm | hm
        · subst hm
          rename_i hna
          exact Or.inr ⟨List.mem_cons_self c cs, Bool.eq_false_iff.mpr hna⟩
        · rcases ih hm with hm' | ⟨hmem, hsp⟩
          · exact Or.inl hm'
          · exact Or.inr ⟨List.mem_cons_of_mem a hmem, hsp⟩

theorem collapseWs_noPair : ∀ {fuel : Nat} {l : List Char},
    l.length ≤ fuel → hasSpacePair (collapseWs fuel l) = false := by
  intro fuel
  induction fuel with
  | zero =>
    intro l _
    rw [show collapseWs 0 l = [] from by cases l <;> rfl]
    rfl
  | succ f ih =>
    intro l hf
    cases l with
    | nil => rw [collapseWs_nil]; rfl
    | cons c cs =>
      show hasSpacePair (if isPySpace c then ' ' :: collapseWs f (cs.dropWhile isPySpace)
          else c :: collapseWs f cs) = false
      have hlen : (cs.dropWhile isPySpace).length ≤ f := by
        have := List.Sublist.length_le (List.dropWhile_sublist (l := cs) isPySpace)
        simp at hf
        omega
      split
      · refine hasSpacePair_cons (ih hlen) (Or.inr ?_)
        intro x hx
        cases hu : cs.dropWhile isPySpace with
        | nil =>
          rw [hu, collapseWs_nil] at hx
          simp at hx
        | cons d ds =>
          have hd : isPySpace d = false := head_dropWhile_not (by rw [hu]; rfl)
          have hf1 : 1 ≤ f := by
            rw [hu] at hlen
            simp at hlen
            omega
          rw [hu, collapseWs_head? hf1, hd] at hx
          simp at hx
          subst hx
          exact hd
      · refine hasSpacePair_cons (ih (by simp at hf; omega)) (Or.inl ?_)
        rename_i hna
        exact Bool.eq_false_iff.mpr hna

theorem collapseWs_noTriple : ∀ {fuel : Nat} {l : List Char},
    l.length ≤ fuel → hasTriple notNl l = false →
    hasTriple (fun _ => true) (collapseWs fuel l) = false := by
  intro fuel
  induction fuel using Nat.strong_induction_on with
  | _ fuel ih =>
    intro l hf h
    match fuel, l with
    | _, [] =>
      rw [show ∀ f, collapseWs f ([] : List Char) = [] from fun f => by cases f <;> rfl]
      rfl
    | 0, a :: t => simp at hf
    | f + 1, c :: cs =>
      show hasTriple (fun _ => true)
        (if isPySpace c then ' ' :: collapseWs f (cs.dropWhile isPySpace)
         else c :: collapseWs f cs) = false
      have hlen : (cs.dropWhile isPySpace).length ≤ f := by
        have := List.Sublist.length_le (List.dropWhile_sublist (l := cs) isPySpace)
        simp at hf
        omega
      have hcslen : cs.length ≤ f := by
        simp at hf
        omega
      by_cases hc : isPySpace c = true
      · rw [if_pos hc]
        have hzin : hasTriple notNl (cs.dropWhile isPySpace) = false :=
          hasTriple_eq_false_of_infix
            ((List.dropWhile_suffix _).isInfix.trans
              (List.infix_cons_iff.mpr (Or.inr (List.infix_refl cs)))) h
        refine hasTriple_cons (ih f (by omega) hlen hzin) (Or.inl ?_)
        cases hu : cs.dropWhile isPySpace with
        | nil =>
          rw [collapseWs_nil]
          simp
        | cons d ds =>
          have hd : isPySpace d = false := head_dropWhile_not (by rw [hu]; rfl)
          have hf1 : 1 ≤ f := by
            rw [hu] at hlen
            simp at hlen
            omega
          rw [collapseWs_head? hf1, hd]
          intro hx
          simp at hx
          rw [hx] at hd
          exact absurd hd (by decide)
      · rw [if_neg (by simpa using hc)]
        have hcs : hasTriple notNl cs = false := hasTriple_tail h
        have hcsp : c ≠ ' ' := fun he => hc (by rw [he]; decide)
        cases cs with
        | nil =>
          rw [collapseWs_nil]
          rfl
        | cons d ds =>
          by_cases hdsp : isPySpace d = true
          · refine hasTriple_cons (ih f (by omega) hcslen hcs) (Or.inl ?_)
            rw [collapseWs_head? (by simp at hcslen; omega), if_pos hdsp]
            intro hx
            simp at hx
            exact hcsp hx.symm
          · by_cases hdc : d = c
            · subst hdc
              have hdnl : notNl d = true := by
                simp [notNl]
                intro he
                rw [he] at hdsp
                simp [isPySpace] at hdsp
              have hds : ds = [] ∨ ds.head? ≠ some d := by
                cases ds with
                | nil => exact Or.inl rfl
                | cons e es =>
                  refine Or.inr ?_
                  intro he
                  simp at he
                  subst he
                  rw [hasTriple_cons3] at h
                  simp [hdnl] at h
              have hstep : collapseWs (f + 1) (d :: d :: ds) =
                  d :: collapseWs f (d :: ds) := by
                show (if isPySpace d then _ else _) = _
                rw [if_neg (by simpa using hdsp)]
              have hlen2 : ds.length ≤ f - 1 := by
                simp at hf
                omega
              have hf2 : 1 ≤ f := by
                simp at hf
                omega
              have hstep2 : collapseWs f (d :: ds) = d :: collapseWs (f - 1) ds := by
                obtain ⟨f', rfl⟩ : ∃ f', f = f' + 1 := ⟨f - 1, by omega⟩
                show (if isPySpace d then _ else _) = _
                rw [if_neg (by simpa using hdsp)]
                simp
              have hdshead : (collapseWs (f - 1) ds).head? ≠ some d := by
                cases ds with
                | nil =>
                  rw [show ∀ g, collapseWs g ([] : List Char) = [] from
                    fun g => by cases g <;> rfl]
                  simp
                | cons e es =>
                  have hf3 : 1 ≤ f - 1 := by
                    simp at hf
                    omega
                  rw [collapseWs_head? hf3]
                  rcases hds with hds | hds
                  · simp at hds
                  · simp at hds
                    intro hx
                    simp at hx
                    split at hx
                    · exact hcsp hx.symm
                    · exact hds hx
              have hdstrip : hasTriple notNl ds = false := hasTriple_tail hcs
              have hz : hasTriple (fun _ => true) (collapseWs (f - 1) ds) = false :=
                ih (f - 1) (by omega) hlen2 hdstrip
              rw [hstep2]
              exact hasTriple_cons_cons hdshead (hasTriple_cons hz (Or.inl hdshead))
            · refine hasTriple_cons (ih f (by omega) hcslen hcs) (Or.inl ?_)
              rw [collapseWs_head? (by simp at hcslen; omega), if_neg (by simpa using hdsp)]
              intro hx
              simp at hx
              exact hdc hx

/-- Characters that can appear right after `normalize_unicode` inside `clean`:
kept alphanumerics and punctuation, or ASCII whitespace. -/
def outOK (c : Char) : Bool :=
  c.isAlphanum || c == '.' || c == ',' || c == '!' || c == '?' || c == ';' ||
  c == ':' || (isPySpace c && decide (c.toNat < 128))

theorem specialKeep_cases {c : Char} (h : specialKeep c = true) :
    c.isAlphanum = true ∨ isPySpace c = true ∨ c = '.' ∨ c = ',' ∨ c = '!' ∨
    c = '?' ∨ c = ';' ∨ c = ':' := by
  simp [specialKeep] at h
  tauto

theorem normalize_unicode_chars {l : List Char} (h : ∀ c ∈ l, specialKeep c = true) :
    ∀ c ∈ normalize_unicode l, outOK c = true := by
  intro c hc
  unfold normalize_unicode at hc
  rw [List.mem_flatten] at hc
  obtain ⟨s, hs, hcs⟩ := hc
  rw [List.mem_map] at hs
  obtain ⟨a, ha, rfl⟩ := hs
  unfold unidecodeChar at hcs
  by_cases hascii : a.toNat < 128
  · rw [if_pos hascii] at hcs
    simp at hcs
    rw [hcs]
    rcases specialKeep_cases (h a ha) with hA | hS | hP | hP | hP | hP | hP | hP
    · simp [outOK, hA]
    · simp [outOK, hS, hascii]
    all_goals (rw [hP]; decide)
  · rw [if_neg hascii] at hcs
    rcases hfind : ([('é', ['e']), (Char.ofNat 0xa0, [' '])] :
        List (Char × List Char)).find? (fun p => p.1 == a) with _ | p
    · rw [hfind] at hcs
      simp at hcs
    · rw [hfind] at hcs
      have hmem := List.mem_of_find?_eq_some hfind
      have hkey := List.find?_some hfind
      have hkey' : p.1 = a := beq_iff_eq.mp hkey
      rcases List.mem_cons.mp hmem with hp | hp
      · subst hp
        rw [← hkey'] at ha
        exact absurd (h _ ha) (by decide)
      · simp at hp
        subst hp
        simp at hcs
        subst hcs
        decide

theorem outOK_allowed {c : Char} (h : outOK c = true) (hs : isPySpace c = false) :
    allowedOut c = true := by
  simp only [outOK, Bool.or_eq_true, beq_iff_eq, Bool.and_eq_true,
    decide_eq_true_eq] at h
  rcases h with ((((((h | h) | h) | h) | h) | h) | h) | ⟨h1, h2⟩
  · simp [allowedOut, h]
  · subst h; decide
  · subst h; decide
  · subst h; decide
  · subst h; decide
  · subst h; decide
  · subst h; decide
  · simp [h1] at hs

/-- The invariant satisfied by every output of `clean`: only the allowed
characters, no adjacent whitespace, no three equal adjacent characters, and
no leading/trailing whitespace. -/
def CleanImage (y : List Char) : Prop :=
  (∀ c ∈ y, allowedOut c = true) ∧
  hasSpacePair y = false ∧
  hasTriple (fun _ => true) y = false ∧
  (∀ x, y.head? = some x → isPySpace x = false) ∧
  (∀ x, y.getLast? = some x → isPySpace x = false)

theorem cleanImage_of_pre {w : List Char} (hw : ∀ c ∈ w, outOK c = true)
    (ht : hasTriple notNl w = false) :
    CleanImage (pyStrip (collapseWs w.length w)) := by
  have hvchars : ∀ c ∈ collapseWs w.length w, allowedOut c = true := by
    intro c hc
    rcases collapseWs_chars hc with rfl | ⟨hmem, hsp⟩
    · decide
    · exact outOK_allowed (hw c hmem) hsp
  have hvpair : hasSpacePair (collapseWs w.length w) = false := collapseWs_noPair le_rfl
  have hvtrip : hasTriple (fun _ => true) (collapseWs w.length w) = false :=
    collapseWs_noTriple le_rfl ht
  have hyinf := pyStrip_infix (collapseWs w.length w)
  exact ⟨fun c hc => hvchars c (hyinf.subset hc),
    hasSpacePair_eq_false_of_infix hyinf hvpair,
    hasTriple_eq_false_of_infix hyinf hvtrip,
    fun x hx => pyStrip_head_not_space hx,
    fun x hx => pyStrip_getLast_not_space hx⟩

theorem cleanImage_nil : CleanImage [] := by
  refine ⟨by simp, rfl, rfl, by simp, by simp⟩

theorem clean_image (x : List Char) : CleanImage (normalize x) := by
  unfold normalize clean
  by_cases hemp : x.isEmpty
  · rw [if_pos hemp]
    exact cleanImage_nil
  · rw [if_neg hemp]
    show CleanImage (pyStrip (normalize_whitespace (remove_repeated_characters
      (normalize_unicode (remove_special_characters (replace_emojis_with_text
        (remove_mentions (remove_emails (remove_urls (remove_html_tags
          (pyStrip x)))))))))))
    have hc7 : ∀ c ∈ remove_special_characters (replace_emojis_with_text
        (remove_mentions (remove_emails (remove_urls (remove_html_tags
          (pyStrip x)))))), specialKeep c = true := by
      intro c hc
      exact List.of_mem_filter hc
    have hc8 := normalize_unicode_chars hc7
    have hw : ∀ c ∈ remove_repeated_characters (normalize_unicode
        (remove_special_characters (replace_emojis_with_text (remove_mentions
          (remove_emails (remove_urls (remove_html_tags (pyStrip x)))))))),
        outOK c = true := by
      intro c hc
      exact hc8 c (removeRepeatedGo_subset hc)
    have ht : hasTriple notNl (remove_repeated_characters (normalize_unicode
        (remove_special_characters (replace_emojis_with_text (remove_mentions
          (remove_emails (remove_urls (remove_html_tags (pyStrip x))))))))) = false :=
      removeRepeatedGo_noTriple le_rfl
    have himg := cleanImage_of_pre hw ht
    obtain ⟨h1, h2, h3, h4, h5⟩ := himg
    have hps : pyStrip (pyStrip (collapseWs _ _)) = pyStrip (collapseWs _ _) :=
      pyStrip_eq_self h4 h5
    unfold normalize_whitespace
    rw [hps]
    exact ⟨h1, h2, h3, h4, h5⟩

theorem clean_of_image {y : List Char} (h : CleanImage y) : normalize y = y := by
  obtain ⟨hch, hpair, htrip, hhd, htl⟩ := h
  have hne : ∀ x : Char, allowedOut x = false → x ∉ y := by
    intro x hx hm
    simp [hch x hm] at hx
  unfold normalize clean
  by_cases hemp : y.isEmpty
  · rw [if_pos hemp]
    exact (List.isEmpty_iff.mp hemp).symm
  · rw [if_neg hemp]
    show pyStrip (normalize_whitespace (remove_repeated_characters
      (normalize_unicode (remove_special_characters (replace_emojis_with_text
        (remove_mentions (remove_emails (remove_urls (remove_html_tags
          (pyStrip y)))))))))) = y
    have h0 : pyStrip y = y := pyStrip_eq_self hhd htl
    have h1 : remove_html_tags y = y := by
      unfold remove_html_tags
      rw [stripTagsAux_eq_self (hne '<' (by decide))]
      exact decodeEntitiesGo_eq_self (hne '&' (by decide)) le_rfl
    have h2 : remove_urls y = y := subDelete_eq_self (urlMatchAt_none (hne '/' (by decide)))
    have h3 : remove_emails y = y :=
      subDelete_eq_self (emailMatchAt_none (hne '@' (by decide)))
    have h5 : remove_mentions y = y :=
      subDelete_eq_self (mentionMatchAt_none (hne '@' (by decide)))
    have h6 : replace_emojis_with_text y = y := replace_emojis_eq_self hch
    have h7 : remove_special_characters y = y := remove_special_eq_self hch
    have h8 : normalize_unicode y = y := normalize_unicode_eq_self hch
    have h9 : remove_repeated_characters y = y := remove_repeated_eq_self htrip
    have h10 : normalize_whitespace y = y := by
      unfold normalize_whitespace
      rw [collapseWs_eq_self
        (fun c hc hs => allowedOut_pyspace_eq_space (hch c hc) hs) hpair le_rfl]
      exact pyStrip_eq_self hhd htl
    rw [h0, h1, h2, h3, h5, h6, h7, h8, h9, h10]
    exact h0

/-- C8: the normalizer is idempotent: for every input,
`clean` applied to its own output returns that output unchanged. -/
theorem normalize_idempotent (x : List Char) :
    normalize (normalize x) = normalize x :=
  clean_of_image (clean_image x)

/-! ## Topic clustering (`app/services/topic_cluster.py`)

Posts travel between pipeline stages as Python dicts read with `.get`; we
model them as a structure of optional fields (`none` = key absent or `None`).
The external providers (sentence-transformer `encode`, the sklearn
`fit_predict`, and TF-IDF keyword extraction) are parameters of a
`ClusterEnv`; errors they raise are `Except.error`. -/

/-- A post dict as it flows through the pipeline. -/
structure PostDict where
  id : Option String := none
  platform : Option String := none
  textContent : Option String := none
  text : Option String := none
  engagementCount : Option Int := none
  region : Option String := none
  engagement : Option Int := none
  likesCount : Option Int := none
  sharesCount : Option Int := none
  commentsCount : Option Int := none
  viewsCount : Option Int := none
  publishedAt : Option String := none
  language : Option String := none
  sentiment : Option ℚ := none
  toxicity : Option ℚ := none
  is_sa : Option Bool := none
  is_spam : Option Bool := none
  language_confidence : Option ℚ := none
  likes : Option Int := none
  shares : Option Int := none
  comments : Option Int := none
  views : Option Int := none
  deriving Repr, DecidableEq

/-- The recurring idiom `post.get('textContent', '') or post.get('text', '')`. -/
def postText (p : PostDict) : String :=
  let t1 := p.textContent.getD ""
  if t1 ≠ "" then t1 else p.text.getD ""

/-- Embeds `TopicCluster._extract_texts` (topic_cluster.py lines 148-163). -/
def _extract_texts (posts : List PostDict) : List String :=
  posts.filterMap (fun p => if postText p = "" then none else some (postText p))

/-- A topic draft dict as built by `_group_posts_by_cluster` and
`generate_topic_metadata` (the unused `embeddings` member and the wall-clock
`created_at` field are not modelled). -/
structure TopicDraft where
  id : String
  posts : List PostDict
  size : Nat
  virality_score : ℚ := 0
  title : String := ""
  summary : String := ""
  keywords : List String := []
  platforms : List String := []
  total_engagement : Int := 0
  region : Option String := none
  post_count : Nat := 0
  topic_id : Option String := none
  deriving Repr, DecidableEq

/-- External capabilities used by `TopicCluster`. -/
structure ClusterEnv where
  stAvailable : Bool
  stEncode : List String → Except PyErr (List (List ℚ))
  tfidfEncode : List String → Except PyErr (List (List ℚ))
  fitPredict : List (List ℚ) → Nat → Except PyErr (List Int)
  keywordsOf : List String → List String

/-- Assemble the `all_embeddings` array of
`_generate_sentence_transformer_embeddings` (lines 230-249): each text takes
its cached embedding, anything else consumes the next newly encoded row. -/
def assembleEmb : List String → List (String × List ℚ) → List (List ℚ) → List (List ℚ)
  | [], _, _ => []
  | t :: ts, cache, new =>
    match cache.lookup t with
    | some e => e :: assembleEmb ts cache new
    | none =>
      match new with
      | [] => []
      | e :: new' => e :: assembleEmb ts cache new'

/-- Embeds `TopicCluster._generate_sentence_transformer_embeddings`
(lines 189-249): cached texts are reused, the uncached ones go to
`model.encode` in one batch (an exception there propagates to the caller);
the cache key (an md5 of the text) is modelled by the text itself. -/
def _generate_st_embeddings (encode : List String → Except PyErr (List (List ℚ)))
    (cache : List (String × List ℚ)) (texts : List String) :
    Except PyErr (List (List ℚ)) :=
  let uncached := texts.filter (fun t => (cache.lookup t).isNone)
  match (if uncached.isEmpty then Except.ok [] else encode uncached) with
  | Except.error e => Except.error e
  | Except.ok new => Except.ok (assembleEmb texts cache new)

/-- Embeds `TopicCluster.generate_embeddings` (lines 165-187): the chosen
provider's exception is caught and replaced by the
`np.zeros((len(texts), 384))` fallback. -/
def generate_embeddings (env : ClusterEnv) (cache : List (String × List ℚ))
    (texts : List String) : List (List ℚ) :=
  if texts.isEmpty then []
  else
    match (if env.stAvailable then _generate_st_embeddings env.stEncode cache texts
           else env.tfidfEncode texts) with
    | Except.ok es => es
    | Except.error _ => List.replicate texts.length (List.replicate 384 0)

/-- Embeds `TopicCluster.apply_clustering` (lines 268-304): fewer points than
`min_cluster_size`, or any exception from the clusterer, labels every point
as noise (-1). -/
def apply_clustering (env : ClusterEnv) (embeddings : List (List ℚ))
    (min_cluster_size : Nat) : List Int :=
  if embeddings.length < min_cluster_size then
    List.replicate embeddings.length (-1)
  else
    match env.fitPredict embeddings min_cluster_size with
    | Except.ok ls => ls
    | Except.error _ => List.replicate embeddings.length (-1)

/-- Append `post` to the group of `label`, creating the group at the end on
first sight (Python dicts preserve insertion order). -/
def addToGroups (groups : List (Int × List PostDict)) (label : Int)
    (post : PostDict) : List (Int × List PostDict) :=
  match groups with
  | [] => [(label, [post])]
  | (l, ps) :: rest =>
    if l = label then (l, ps ++ [post]) :: rest
    else (l, ps) :: addToGroups rest label post

/-- Embeds `TopicCluster._group_posts_by_cluster` (lines 306-357): posts are
zipped with labels, noise (-1) is skipped, groups get ids `topic_k` in
first-seen order, and groups below `min_cluster_size` are filtered out. -/
def _group_posts_by_cluster (posts : List PostDict) (labels : List Int)
    (min_cluster_size : Nat) : List TopicDraft :=
  let pairs := posts.zip labels
  let groups := pairs.foldl
    (fun acc pl => if pl.2 = -1 then acc else addToGroups acc pl.2 pl.1) []
  let drafts := groups.enum.map (fun kg =>
    { id := "topic_" ++ toString kg.1
      posts := kg.2.2
      size := kg.2.2.length
      virality_score := 0 : TopicDraft })
  drafts.filter (fun t => min_cluster_size ≤ t.size)

/-- Python `" ".join(parts)`. -/
def joinSpace : List String → String
  | [] => ""
  | [a] => a
  | a :: b :: t => a ++ " " ++ joinSpace (b :: t)

/-- Truncation `s[:100]`. -/
def take100 (s : String) : String := ⟨s.data.take 100⟩

/-- Model of Python `str.title()` (ASCII scope): the first letter of each
alphabetic run is uppercased, the rest lowercased. -/
def pythonTitleGo : Bool → List Char → List Char
  | _, [] => []
  | prevAlpha, c :: cs =>
    if c.isAlpha then
      (if prevAlpha then c.toLower else c.toUpper) :: pythonTitleGo true cs
    else c :: pythonTitleGo false cs

/-- Python `str.title()`. -/
def pythonTitle (s : String) : String := ⟨pythonTitleGo false s.data⟩

/-- Embeds the representative-post fold of `generate_topic_title`
(lines 472-487): highest engagement-to-length ratio among posts with text. -/
def representativePost (posts : List PostDict) : Option String :=
  (posts.foldl (fun (acc : ℚ × Option String) post =>
    let text := postText post
    let engagement := post.engagementCount.getD 0
    if 0 < text.length then
      let score : ℚ := (engagement : ℚ) / ((max text.length 1 : Nat) : ℚ)
      if acc.1 < score then (score, some text) else acc
    else acc) (-1, none)).2

/-- Embeds `TopicCluster.generate_topic_title` (lines 461-501): the
representative post text when it is at most 100 characters, else the first
three keywords joined, title-cased and truncated to 100 characters, else
`"Untitled Topic"` (also returned by the `except` handler). -/
def generate_topic_title (posts : List PostDict) (keywords : List String) : String :=
  match representativePost posts with
  | some t =>
    if t.length ≤ 100 then t
    else if keywords ≠ [] then take100 (pythonTitle (joinSpace (keywords.take 3)))
    else "Untitled Topic"
  | none =>
    if keywords ≠ [] then take100 (pythonTitle (joinSpace (keywords.take 3)))
    else "Untitled Topic"

/-- Embeds `TopicCluster.generate_topic_summary` (lines 503-543): posts
sorted by `(engagement, text)` descending, greedily concatenated while the
running length fits in 200, joined by spaces and truncated.  Python's stable
`sort(reverse=True)` on pairs is modelled by a merge sort on the
lexicographic order. -/
def generate_topic_summary (posts : List PostDict) : String :=
  if _extract_texts posts = [] then ""
  else
    let pairs := posts.map (fun p => (p.engagementCount.getD 0, postText p))
    let sorted := pairs.mergeSort (fun a b =>
      decide (b.1 < a.1 ∨ (a.1 = b.1 ∧ ¬ a.2 < b.2)))
    let top := sorted.take 5
    let parts := (top.foldl (fun (acc : Nat × List String) et =>
      if acc.1 + et.2.length ≤ 200 then (acc.1 + et.2.length, acc.2 ++ [et.2])
      else acc) (0, [])).2
    ⟨(joinSpace parts).data.take 200⟩

/-- First-occurrence deduplication, modelling iteration over a Python `set`
(whose real iteration order is implementation-defined). -/
def dedupFirst : List String → List String
  | [] => []
  | a :: t => a :: dedupFirst (t.filter (fun x => x ≠ a))
termination_by l => l.length
decreasing_by
  simp only [List.length_cons]
  have := List.length_filter_le (fun x => decide (x ≠ a)) t
  omega

/-- Number of occurrences of `x` in `l` (Python `list.count`). -/
def countOcc (l : List String) (x : String) : Nat :=
  (l.filter (fun y => y = x)).length

/-- Model of `max(set(regions), key=regions.count)`: an element of maximal
count (first occurrence wins ties; Python's tie-break by set iteration order
is implementation-defined). -/
def mostCommon (l : List String) : Option String :=
  (dedupFirst l).foldl (fun acc x =>
    match acc with
    | none => some x
    | some b => if countOcc l b < countOcc l x then some x else acc) none

/-- The metadata dict produced by `generate_topic_metadata` (the wall-clock
`created_at` field is not modelled). -/
structure TopicMetadata where
  title : String
  summary : String
  keywords : List String
  platforms : List String
  total_engagement : Int
  region : Option String
  post_count : Nat
  deriving Repr, DecidableEq

/-- Embeds `TopicCluster.generate_topic_metadata` (lines 359-414); keyword
extraction (sklearn TF-IDF, lines 416-459) is the `keywordsOf` capability of
the environment. -/
def generate_topic_metadata (env : ClusterEnv) (posts : List PostDict)
    (_cluster_id : String) : TopicMetadata :=
  let texts := _extract_texts posts
  let keywords := env.keywordsOf texts
  let regions := posts.filterMap (fun p =>
    match p.region with
    | some r => if r ≠ "" then some r else none
    | none => none)
  { title := generate_topic_title posts keywords
    summary := generate_topic_summary posts
    keywords := keywords
    platforms := dedupFirst (posts.map (fun p => p.platform.getD ""))
    total_engagement := (posts.map (fun p => p.engagementCount.getD 0)).sum
    region := mostCommon regions
    post_count := posts.length }

/-- The `topic.update(metadata)` call of `cluster_posts` (line 134). -/
def applyMetadata (t : TopicDraft) (m : TopicMetadata) : TopicDraft :=
  { t with
    title := m.title
    summary := m.summary
    keywords := m.keywords
    platforms := m.platforms
    total_engagement := m.total_engagement
    region := m.region
    post_count := m.post_count }

/-- The idiom `min_cluster_size or self.min_cluster_size` (line 115) with the
instance default 5. -/
def resolveMin : Option Nat → Nat
  | none => 5
  | some k => if k = 0 then 5 else k

/-- Embeds `TopicCluster.cluster_posts` (lines 98-146) on well-formed post
dicts.  Every inner step handles its own failures (`generate_embeddings`
substitutes zeros, `apply_clustering` labels everything noise,
`generate_topic_metadata` has its own fallback), so for dict-shaped inputs
with a loaded model no exception reaches the outer `except` and the
single-`fallback_cluster` branch (lines 138-146) is unreachable; it is
reachable in Python only via an exception the inner handlers miss, e.g.
non-dict post inputs (`load_models` runs before the `try`, so its failure
propagates to the caller instead). -/
def cluster_posts (env : ClusterEnv) (cache : List (String × List ℚ))
    (posts : List PostDict) (min_cluster_size : Option Nat) : List TopicDraft :=
  if posts.isEmpty then []
  else
    let m := resolveMin min_cluster_size
    let texts := _extract_texts posts
    if texts.isEmpty then []
    else
      let embeddings := generate_embeddings env cache texts
      let labels := apply_clustering env embeddings m
      let topics := _group_posts_by_cluster posts labels m
      topics.map (fun t => applyMetadata t (generate_topic_metadata env t.posts t.id))

/-- An environment whose embedding provider throws on every call and whose
clusterer also fails. -/
def envAllFail : ClusterEnv :=
  { stAvailable := true
    stEncode := fun _ => Except.error PyErr.providerError
    tfidfEncode := fun _ => Except.error PyErr.providerError
    fitPredict := fun _ _ => Except.error PyErr.providerError
    keywordsOf := fun _ => [] }

/-- Two well-formed posts with text. -/
def c2Post1 : PostDict := { id := some "p1", text := some "aaa" }

/-- Second concrete post for the C2 scenario. -/
def c2Post2 : PostDict := { id := some "p2", text := some "bbb" }

theorem foldl_addToGroups_nil {pairs : List (PostDict × Int)}
    (h : ∀ pl ∈ pairs, pl.2 = -1) :
    pairs.foldl (fun acc pl => if pl.2 = -1 then acc
      else addToGroups acc pl.2 pl.1) [] = [] := by
  induction pairs with
  | nil => rfl
  | cons p ps ih =>
    rw [List.foldl_cons, if_pos (h p (List.mem_cons_self p ps))]
    exact ih (fun pl hpl => h pl (List.mem_cons_of_mem p hpl))

/-- C2 counterexample: with the embedding provider throwing on every call
(and the clusterer failing on the zero embeddings it would otherwise
receive), `cluster_posts` on two posts returns the EMPTY list — both posts
are silently dropped and no single fallback cluster is produced. -/
theorem cluster_posts_provider_outage_counterexample :
    cluster_posts envAllFail [] [c2Post1, c2Post2] none = [] ∧
    ¬ ∃ t : TopicDraft, cluster_posts envAllFail [] [c2Post1, c2Post2] none = [t] ∧
        c2Post1 ∈ t.posts ∧ c2Post2 ∈ t.posts := by
  constructor
  · rfl
  · rintro ⟨t, ht, -, -⟩
    rw [show cluster_posts envAllFail [] [c2Post1, c2Post2] none = [] from rfl] at ht
    cases ht

/-- When the clusterer either throws or labels every point noise,
`cluster_posts` drops the whole batch and returns the empty list. -/
theorem cluster_posts_all_noise
    (env : ClusterEnv) (cache : List (String × List ℚ)) (posts : List PostDict)
    (min_cluster_size : Option Nat)
    (hfp : ∀ embs m, env.fitPredict embs m = Except.error PyErr.providerError ∨
      env.fitPredict embs m = Except.ok (List.replicate embs.length (-1))) :
    cluster_posts env cache posts min_cluster_size = [] := by
  unfold cluster_posts
  by_cases hp : posts.isEmpty
  · rw [if_pos hp]
  · rw [if_neg hp]
    by_cases ht : (_extract_texts posts).isEmpty
    · rw [if_pos ht]
    · rw [if_neg ht]
      have hlab : ∀ x ∈ apply_clustering env
          (generate_embeddings env cache (_extract_texts posts))
          (resolveMin min_cluster_size), x = -1 := by
        intro x hx
        unfold apply_clustering at hx
        split at hx
        · exact List.eq_of_mem_replicate hx
        · rcases hfp (generate_embeddings env cache (_extract_texts posts))
            (resolveMin min_cluster_size) with he | he
          · rw [he] at hx
            exact List.eq_of_mem_replicate hx
          · rw [he] at hx
            exact List.eq_of_mem_replicate hx
      have hgroup : _group_posts_by_cluster posts
          (apply_clustering env (generate_embeddings env cache (_extract_texts posts))
            (resolveMin min_cluster_size))
          (resolveMin min_cluster_size) = [] := by
        unfold _group_posts_by_cluster
        dsimp only
        rw [foldl_addToGroups_nil (fun pl hpl => hlab pl.2 (List.of_mem_zip hpl).2)]
        rfl
      dsimp only
      rw [hgroup]
      rfl

/-- C2 amended: an embedding-provider outage is caught inside
`generate_embeddings` (zero embeddings) and a clustering failure inside
`apply_clustering` (all points labelled noise), so whenever the clusterer
fails or labels everything noise — in particular in the provider-outage
scenario, where it runs on all-zero embeddings — `cluster_posts` returns the
empty list: every input post is dropped, and the single-fallback-cluster
branch is never taken (it is reachable only by an exception escaping the
inner handlers, e.g. for non-dict post inputs). -/
theorem cluster_posts_empty_on_clustering_failure
    (env : ClusterEnv) (cache : List (String × List ℚ)) (posts : List PostDict)
    (min_cluster_size : Option Nat)
    (hfp : ∀ embs m, env.fitPredict embs m = Except.error PyErr.providerError ∨
      env.fitPredict embs m = Except.ok (List.replicate embs.length (-1))) :
    cluster_posts env cache posts min_cluster_size = [] :=
  cluster_posts_all_noise env cache posts min_cluster_size hfp

/-- Witness for the C2 amended theorem at the concrete failing environment. -/
theorem cluster_posts_empty_on_clustering_failure_witness :
    cluster_posts envAllFail [] [c2Post1, c2Post2] none = [] :=
  cluster_posts_empty_on_clustering_failure envAllFail [] [c2Post1, c2Post2] none
    (fun _ _ => Or.inl rfl)

theorem pythonTitleGo_length : ∀ (b : Bool) (l : List Char),
    (pythonTitleGo b l).length = l.length := by
  intro b l
  induction l generalizing b with
  | nil => rfl
  | cons c cs ih =>
    show (if c.isAlpha then (if b then c.toLower else c.toUpper) ::
        pythonTitleGo true cs else c :: pythonTitleGo false cs).length = cs.length + 1
    split <;> simp [ih]

theorem joinSpace_le_length (a : String) (t : List String) :
    a.length ≤ (joinSpace (a :: t)).length := by
  cases t with
  | nil => exact le_rfl
  | cons b t' =>
    show a.length ≤ (a ++ " " ++ joinSpace (b :: t')).length
    simp [String.length_append]
    omega

theorem string_data_ne_nil {s : String} (h : s ≠ "") : s.data ≠ [] := by
  intro hd
  apply h
  cases s
  simp only [String.data] at hd
  rw [hd]

theorem string_pos_of_ne {s : String} (h : s ≠ "") : 0 < s.length := by
  have := string_data_ne_nil h
  cases hd : s.data with
  | nil => exact absurd hd this
  | cons c cs =>
    show 0 < s.data.length
    rw [hd]
    simp

theorem take100_length (s : String) : (take100 s).length ≤ 100 := by
  show (s.data.take 100).length ≤ 100
  rw [List.length_take]
  omega

theorem take100_ne_empty {s : String} (h : 0 < s.length) : take100 s ≠ "" := by
  intro heq
  have hd : s.data.take 100 = [] := congrArg String.data heq
  rw [List.take_eq_nil_iff] at hd
  have : 0 < s.data.length := h
  rcases hd with hd | hd
  · simp at hd
  · rw [hd] at this
    simp at this

theorem repFold_pos (posts : List PostDict) :
    ∀ (acc : ℚ × Option String), (∀ t, acc.2 = some t → 0 < t.length) →
    ∀ t, ((posts.foldl (fun (acc : ℚ × Option String) post =>
      let text := postText post
      let engagement := post.engagementCount.getD 0
      if 0 < text.length then
        let score : ℚ := (engagement : ℚ) / ((max text.length 1 : Nat) : ℚ)
        if acc.1 < score then (score, some text) else acc
      else acc) acc).2 = some t) → 0 < t.length := by
  induction posts with
  | nil =>
    intro acc hacc t ht
    exact hacc t ht
  | cons p ps ih =>
    intro acc hacc t ht
    rw [List.foldl_cons] at ht
    refine ih _ ?_ t ht
    intro t' ht'
    simp only at ht'
    split at ht'
    · split at ht'
      · simp at ht'
        rename_i h1 h2
        rw [← ht']
        exact h1
      · exact hacc t' ht'
    · exact hacc t' ht'

theorem representativePost_pos {posts : List PostDict} {t : String}
    (h : representativePost posts = some t) : 0 < t.length := by
  unfold representativePost at h
  refine repFold_pos posts (-1, none) ?_ t h
  intro t' ht'
  simp at ht'

theorem title_fallback_bounds {keywords : List String} (hk0 : keywords ≠ [])
    (hk : ∀ k ∈ keywords, k ≠ "") :
    take100 (pythonTitle (joinSpace (keywords.take 3))) ≠ "" ∧
    (take100 (pythonTitle (joinSpace (keywords.take 3)))).length ≤ 100 := by
  refine ⟨?_, take100_length _⟩
  cases keywords with
  | nil => exact absurd rfl hk0
  | cons k0 kt =>
    have hk0ne : k0 ≠ "" := hk k0 (List.mem_cons_self k0 kt)
    refine take100_ne_empty ?_
    have h1 : (pythonTitle (joinSpace ((k0 :: kt).take 3))).length =
        (joinSpace ((k0 :: kt).take 3)).length := by
      show (pythonTitleGo false (joinSpace ((k0 :: kt).take 3)).data).length = _
      exact pythonTitleGo_length false _
    rw [h1]
    have h2 : (k0 :: kt).take 3 = k0 :: kt.take 2 := rfl
    rw [h2]
    calc 0 < k0.length := string_pos_of_ne hk0ne
    _ ≤ (joinSpace (k0 :: kt.take 2)).length := joinSpace_le_length k0 _

/-- C10: for every non-empty cluster with well-formed (non-empty) keywords,
`generate_topic_title` returns a non-empty title of at most 100 characters on
every return path: the representative text is used only when its length is at
most 100, the keyword fallback is title-cased and truncated to 100, and
otherwise the constant `"Untitled Topic"` is returned (the `except` handler
returns the same constant). -/
theorem generate_topic_title_bounds (posts : List PostDict) (keywords : List String)
    (_hp : posts ≠ []) (hk : ∀ k ∈ keywords, k ≠ "") :
    generate_topic_title posts keywords ≠ "" ∧
    (generate_topic_title posts keywords).length ≤ 100 := by
  unfold generate_topic_title
  cases hrep : representativePost posts with
  | some t =>
    dsimp only
    by_cases hlen : t.length ≤ 100
    · rw [if_pos hlen]
      refine ⟨?_, hlen⟩
      intro he
      have := representativePost_pos hrep
      rw [he] at this
      simp at this
    · rw [if_neg hlen]
      by_cases hk0 : keywords ≠ []
      · rw [if_pos hk0]
        exact title_fallback_bounds hk0 hk
      · rw [if_neg hk0]
        exact ⟨by decide, by decide⟩
  | none =>
    dsimp only
    by_cases hk0 : keywords ≠ []
    · rw [if_pos hk0]
      exact title_fallback_bounds hk0 hk
    · rw [if_neg hk0]
      exact ⟨by decide, by decide⟩

/-- Concrete one-post cluster for the C10 witness. -/
def c10Post : PostDict := { id := some "p", text := some "hello", engagementCount := some 3 }

/-- Witness for C10 at a concrete one-post cluster. -/
theorem generate_topic_title_bounds_witness :
    generate_topic_title [c10Post] ["kw"] ≠ "" ∧
    (generate_topic_title [c10Post] ["kw"]).length ≤ 100 :=
  generate_topic_title_bounds _ _ (by simp) (by
    intro k hkm
    simp at hkm
    rw [hkm]
    decide)

/-- The normalization pipeline in the order the claim states it: strip markup,
strip URLs/emails, emoji to text, transliterate, collapse repeated runs to at
most 2, strip noise, collapse whitespace (no mention-stripping step), for
comparison with the order `TextCleaner.clean` actually applies. -/
def clean_spec_order (text : List Char) : List Char :=
  if text.isEmpty then []
  else
    let c0 := pyStrip text
    let c1 := remove_html_tags c0
    let c2 := remove_urls c1
    let c3 := remove_emails c2
    let c4 := replace_emojis_with_text c3
    let c5 := normalize_unicode c4
    let c6 := remove_repeated_characters c5
    let c7 := remove_special_characters c6
    let c8 := normalize_whitespace c7
    pyStrip c8

/-- C6 counterexample: on the input `"@bob café"` the cleaner returns `"caf"`
(the default flags strip the mention, and the noise filter removes `é` before
`unidecode` can transliterate it), while the composition in the claimed order
returns `"bob cafe"`. -/
theorem clean_order_counterexample :
    normalize "@bob café".toList = "caf".toList ∧
    clean_spec_order "@bob café".toList = "bob cafe".toList ∧
    normalize "@bob café".toList ≠ clean_spec_order "@bob café".toList := by
  refine ⟨by decide, by decide, by decide⟩

/-- C6 amended: `TextCleaner.clean` with its default flags applies, in order:
strip, strip markup, strip URLs, strip emails, strip mentions (hashtags are
preserved by default), convert emoji to textual tokens, strip
non-alphanumeric/punctuation noise, transliterate, collapse runs of a repeated
(non-newline) character to at most 2, collapse whitespace, strip — i.e. noise
stripping precedes transliteration, and mention removal is part of the
pipeline. -/
theorem clean_actual_order (text : List Char) :
    normalize text =
      pyStrip (normalize_whitespace (remove_repeated_characters
        (normalize_unicode (remove_special_characters (replace_emojis_with_text
          (remove_mentions (remove_emails (remove_urls (remove_html_tags
            (pyStrip text)))))))))) := by
  unfold normalize clean
  by_cases h : text.isEmpty
  · simp only [h, if_true]
    have : text = [] := List.isEmpty_iff.mp h
    subst this
    decide
  · simp [h]

/-- Witness for the C6 amended theorem at a concrete input. -/
theorem clean_actual_order_witness :
    normalize "aé  b".toList =
      pyStrip (normalize_whitespace (remove_repeated_characters
        (normalize_unicode (remove_special_characters (replace_emojis_with_text
          (remove_mentions (remove_emails (remove_urls (remove_html_tags
            (pyStrip "aé  b".toList)))))))))) :=
  clean_actual_order "aé  b".toList

/-- The spam predicate exactly as the claim states it, with the uppercase rule
applying to texts of length at least 10, for comparison with `is_spam`. -/
def claimed_is_spam (text : List Char) : Bool :=
  let wc : ℚ := (max (wordCount text.length text) 1 : ℕ)
  decide ((countMatches hashtagMatchAt text : ℚ) / wc > 3/10) ||
  decide ((countMatches mentionMatchAt text : ℚ) / wc > 2/10) ||
  decide (countMatches urlMatchAt text > 2) ||
  (decide (10 ≤ text.length) &&
    decide (((text.filter Char.isUpper).length : ℚ) / (text.length : ℚ) > 7/10)) ||
  decide (countMatches repeatedMatchAt text > 3)

/-- C7 counterexample: the all-uppercase text of length exactly 10 satisfies
the claimed predicate (uppercase ratio 1 > 0.7, length ≥ 10, no other rule
firing) but `is_spam` returns `false`, because the code tests
`len(text) > 10`, not `len(text) >= 10`. -/
theorem is_spam_length_ten_counterexample :
    claimed_is_spam "AAAAAAAAAA".toList = true ∧
    is_spam "AAAAAAAAAA".toList = false := by
  have h1 : countMatches hashtagMatchAt "AAAAAAAAAA".toList = 0 := by decide
  have h2 : countMatches mentionMatchAt "AAAAAAAAAA".toList = 0 := by decide
  have h3 : countMatches urlMatchAt "AAAAAAAAAA".toList = 0 := by decide
  have h4 : countMatches repeatedMatchAt "AAAAAAAAAA".toList = 1 := by decide
  have h5 : wordCount "AAAAAAAAAA".toList.length "AAAAAAAAAA".toList = 1 := by decide
  have h6 : "AAAAAAAAAA".toList.length = 10 := by decide
  have h7 : ("AAAAAAAAAA".toList.filter Char.isUpper).length = 10 := by decide
  constructor
  · unfold claimed_is_spam
    rw [h1, h2, h3, h4, h5, h6, h7]
    norm_num
  · unfold is_spam
    rw [h1, h2, h3, h4, h5, h6, h7]
    norm_num

/-- C7 amended: `is_spam` returns true exactly when one of the five rules
fires, with the uppercase rule restricted to texts of length strictly greater
than 10: hashtag-to-word ratio > 0.3, or mention-to-word ratio > 0.2, or URL
count > 2, or (length > 10 and uppercase-character ratio > 0.7), or more than
3 excessive-repetition spans. -/
theorem is_spam_iff (text : List Char) :
    is_spam text = true ↔
      ((countMatches hashtagMatchAt text : ℚ) / (max (wordCount text.length text) 1 : ℕ) > 3/10 ∨
       (countMatches mentionMatchAt text : ℚ) / (max (wordCount text.length text) 1 : ℕ) > 2/10 ∨
       countMatches urlMatchAt text > 2 ∨
       (10 < text.length ∧
         ((text.filter Char.isUpper).length : ℚ) / (text.length : ℚ) > 7/10) ∨
       countMatches repeatedMatchAt text > 3) := by
  unfold is_spam
  dsimp only
  split_ifs with h1 h2 h3 h4 h5
  · exact iff_of_true rfl (Or.inl h1)
  · exact iff_of_true rfl (Or.inr (Or.inl h2))
  · exact iff_of_true rfl (Or.inr (Or.inr (Or.inl h3)))
  · exact iff_of_true rfl (Or.inr (Or.inr (Or.inr (Or.inl h4))))
  · exact iff_of_true rfl (Or.inr (Or.inr (Or.inr (Or.inr h5))))
  · refine iff_of_false (by simp) ?_
    rintro (h | h | h | h | h)
    · exact h1 h
    · exact h2 h
    · exact h3 h
    · exact h4 h
    · exact h5 h

/-! ## Ingest pipeline and IngestEvent flag updates (ingest_router.py)

The persistence model is restricted to what the claims are about: the
`IngestEvent` rows' `processed` flag and `topicId` column.  The `TrendTopic`
and `TrendHistory` rows created by `cluster_posts_background`, the metric
tracking and the cache invalidation are outside this model; the only effect
of the topic-creation loop that feeds back into the flag update is the
`topic['topic_id'] = str(db_topic.id)` assignment, modelled by the
`create` parameter below. -/

/-- A `SentimentScore` response model (schemas.py lines 264-272); the
optional `emotions` map is carried but never read by the routers. -/
structure SentimentScore where
  score : ℚ
  label : String
  confidence : ℚ
  emotions : Option (List (String × ℚ)) := none
  deriving Repr, DecidableEq

/-- A `ToxicityScore` response model (schemas.py lines 292-300). -/
structure ToxicityScore where
  score : ℚ
  is_toxic : Bool
  categories : List (String × ℚ) := []
  confidence : ℚ
  deriving Repr, DecidableEq

/-- A `GeoClassification` response model (schemas.py lines 319-327). -/
structure GeoClassification where
  region : Option String := none
  confidence : ℚ
  is_south_african : Bool
  indicators : List String := []
  deriving Repr, DecidableEq

/-- The downstream analysis services used by `process_single_post` and
`classify_text`, as oracles over the cleaned text.  `detect`, `analyze` and
`classify` can raise (modelled by `Except`); `is_supported_language` is kept
total because no caller installs a handler that distinguishes its failure
(an exception there would abort the whole request / skip the post via the
blanket handlers, touching no path settled here).  The second argument of
`detect` and `is_supported_language` is `min_confidence`. -/
structure ServicesEnv where
  detect : String → ℚ → Except PyErr (String × ℚ)
  is_supported_language : String → ℚ → Bool
  sentimentAnalyze : String → Except PyErr SentimentScore
  toxicityAnalyze : String → Except PyErr ToxicityScore
  geoClassify : String → Except PyErr GeoClassification

/-- An `IngestEvent` row restricted to the columns the flag update touches
(models/database.py): primary key, `processed` (default false) and the
nullable `topicId`. -/
structure IngestEvent where
  id : String
  processed : Bool := false
  topicId : Option String := none
  deriving Repr, DecidableEq

/-- The two UPDATE statement shapes `_update_ingest_event_flags` executes
(ingest_router.py lines 697-733): a per-post update that links a topic, and
a bulk update over a list of ids.  Both are guarded by
`IngestEvent.processed == False`. -/
inductive UpdateStmt where
  | withTopic (pid tid : String)
  | bulk (pids : List String)
  deriving Repr, DecidableEq

/-- Executes one UPDATE statement against the `IngestEvent` table.  The SQL
`WHERE ... AND processed == False` guard with `SET processed = True`
(`, topicId = tid` in the per-post form) acts row by row. -/
def execStmt (db : List IngestEvent) : UpdateStmt → List IngestEvent
  | UpdateStmt.withTopic pid tid =>
    db.map (fun r => if r.id = pid ∧ r.processed = false
      then { r with processed := true, topicId := some tid } else r)
  | UpdateStmt.bulk pids =>
    db.map (fun r => if r.id ∈ pids ∧ r.processed = false
      then { r with processed := true } else r)

/-- `[post.get('id') for post in posts if post.get('id')]` — the truthy ids
of the processed posts (line 680). -/
def ingestPostIds (posts : List PostDict) : List String :=
  posts.filterMap (fun p => match p.id with
    | some s => if s = "" then none else some s
    | none => none)

/-- `dict[k] = v` on an insertion-ordered string dict. -/
def dictInsert (m : List (String × String)) (k v : String) :
    List (String × String) :=
  if m.any (fun kv => kv.1 = k) then
    m.map (fun kv => if kv.1 = k then (k, v) else kv)
  else m ++ [(k, v)]

/-- Embeds `_update_ingest_event_flags` (ingest_router.py lines 667-737).
An empty-list mapping stands for both the `None` default and the empty dict
(both falsy in `if topic_id_mapping:`).  Note that when the mapping is
truthy, only posts present in it are updated, and when additionally no post
id is in the mapping (`if updates:` is false) nothing is updated at all —
the bulk statement runs only in the falsy-mapping branch. -/
def _update_ingest_event_flags (db : List IngestEvent) (posts : List PostDict)
    (topic_id_mapping : List (String × String)) : List IngestEvent :=
  let post_ids := ingestPostIds posts
  if post_ids.isEmpty then db
  else if topic_id_mapping.isEmpty = false then
    let updates := post_ids.filterMap (fun pid =>
      (topic_id_mapping.lookup pid).map (fun tid => (pid, tid)))
    if updates.isEmpty then db
    else updates.foldl (fun d u => execStmt d (UpdateStmt.withTopic u.1 u.2)) db
  else execStmt db (UpdateStmt.bulk post_ids)

/-- Embeds `_create_topic_id_mapping` (lines 740-769): for each topic,
`topic.get('topic_id') or topic.get('id', f"topic_{topic['title']}")` — the
`'id'` key is always present on drafts from `_group_posts_by_cluster`, so
the f-string default is dead — mapped over the topic's posts with truthy
ids; later topics overwrite earlier entries as in a Python dict.  The
`posts` argument is unused in the source as well. -/
def _create_topic_id_mapping (_posts : List PostDict) (topics : List TopicDraft) :
    List (String × String) :=
  topics.foldl (fun mapping topic =>
    let topic_id := match topic.topic_id with
      | some s => if s = "" then topic.id else s
      | none => topic.id
    topic.posts.foldl (fun mapping post =>
      match post.id with
      | some pid => if pid = "" then mapping else dictInsert mapping pid topic_id
      | none => mapping) mapping) []

/-- The per-topic try/except of the DB loop in `cluster_posts_background`
(lines 592-656): a successful `TrendTopic` insert assigns
`topic['topic_id'] = str(db_topic.id)`; an exception rolls back and leaves
the topic dict unchanged.  `create` returns the new row id, or `none` for a
failed insert. -/
def storeTopics (create : TopicDraft → Option String)
    (topics : List TopicDraft) : List TopicDraft :=
  topics.map (fun t => match create t with
    | some tid => { t with topic_id := some tid }
    | none => t)

/-- Embeds `cluster_posts_background` (lines 571-664) as its durable effect
on the `IngestEvent` table: cluster, store topics (assigning `topic_id`s),
build the post-to-topic mapping, execute the flag UPDATEs — and then roll
them back.  The session is opened with `autocommit=False` (utils/db.py
lines 81-87) and the function's only `db.commit()` (line 655) runs *before*
`_update_ingest_event_flags`, gated on `topics_created > 0`;
`_update_ingest_event_flags` issues its UPDATEs with no commit of its own,
and the `async with SessionLocal() as db:` block then exits, closing the
session and rolling the still-open transaction back.  The uncommitted
session state is computed below but discarded: the durable table is
returned unchanged. -/
def cluster_posts_background (cenv : ClusterEnv) (cache : List (String × List ℚ))
    (create : TopicDraft → Option String) (db : List IngestEvent)
    (posts : List PostDict) (min_cluster_size : Nat) : List IngestEvent :=
  let topics := storeTopics create (cluster_posts cenv cache posts (some min_cluster_size))
  let topic_id_mapping := _create_topic_id_mapping posts topics
  let _uncommitted := _update_ingest_event_flags db posts topic_id_mapping
  db

/-- Embeds `process_single_post` (lines 772-847): extract the text, clean
it, run the gate checks (language support, spam, toxicity) and assemble the
processed dict; any filter hit or provider exception yields `none` (the
blanket `except` returns `None`). -/
def process_single_post (env : ServicesEnv) (post : PostDict) : Option PostDict :=
  let text := postText post
  if text = "" then none
  else
    let cleaned_text := clean_for_classification text.toList
    let cleanedStr := String.mk cleaned_text
    match env.detect cleanedStr (1/2) with
    | Except.error _ => none
    | Except.ok lang =>
      if env.is_supported_language cleanedStr (7/10) = false then none
      else if is_spam cleaned_text then none
      else match env.sentimentAnalyze cleanedStr with
        | Except.error _ => none
        | Except.ok sentiment_result =>
          match env.toxicityAnalyze cleanedStr with
          | Except.error _ => none
          | Except.ok toxicity_result =>
            if toxicity_result.is_toxic then none
            else match env.geoClassify cleanedStr with
              | Except.error _ => none
              | Except.ok geo_result =>
                let likes := post.likesCount.getD 0
                let shares := post.sharesCount.getD 0
                let comments := post.commentsCount.getD 0
                let views := post.viewsCount.getD 0
                some { id := post.id
                       platform := post.platform
                       text := some text
                       language := some lang.1
                       language_confidence := some lang.2
                       sentiment := some sentiment_result.score
                       toxicity := some toxicity_result.score
                       is_sa := some geo_result.is_south_african
                       region := geo_result.region
                       likes := some likes
                       shares := some shares
                       comments := some comments
                       views := some views
                       engagement := some (likes + shares + comments)
                       is_spam := some false
                       publishedAt := post.publishedAt }

/-- Embeds `process_and_cluster_posts_background` (lines 541-568): posts
are run one by one through `process_single_post` (per-post exceptions are
already absorbed there), and only the survivors are handed to
`cluster_posts_background` with the hard-coded `min_cluster_size = 5`. -/
def process_and_cluster_posts_background (env : ServicesEnv) (cenv : ClusterEnv)
    (cache : List (String × List ℚ)) (create : TopicDraft → Option String)
    (db : List IngestEvent) (posts : List PostDict) : List IngestEvent :=
  let processed_posts := posts.filterMap (process_single_post env)
  if processed_posts.isEmpty then db
  else cluster_posts_background cenv cache create db processed_posts 5

/-- An all-succeeding services environment for concrete runs. -/
def svcAllOk : ServicesEnv :=
  { detect := fun _ _ => Except.ok ("en", 9/10)
    is_supported_language := fun _ _ => true
    sentimentAnalyze := fun _ => Except.ok { score := 1/2, label := "positive", confidence := 9/10 }
    toxicityAnalyze := fun _ => Except.ok { score := 0, is_toxic := false, confidence := 9/10 }
    geoClassify := fun _ => Except.ok { confidence := 1/2, is_south_african := true } }

/-- A raw post with an id but no text at all. -/
def c3NoTextPost : PostDict := { id := some "p0" }

/-- A raw post that passes every gate of the pipeline. -/
def c3OkPost : PostDict := { id := some "p1", text := some "hello" }

/-- `is_spam` is false whenever the hashtag, mention and uppercase counts
are zero and the URL and repetition counts are within bounds (the ratio
numerators vanish, so the rational comparisons are settled by `norm_num`
independently of the word count). -/
theorem is_spam_false_of_counts {text : List Char}
    (h1 : countMatches hashtagMatchAt text = 0)
    (h2 : countMatches mentionMatchAt text = 0)
    (h3 : countMatches urlMatchAt text ≤ 2)
    (h4 : (text.filter Char.isUpper).length = 0)
    (h5 : countMatches repeatedMatchAt text ≤ 3) :
    is_spam text = false := by
  unfold is_spam
  dsimp only
  rw [h1, h2, h4]
  split_ifs with hA hB hC hD hE
  · rw [Nat.cast_zero, zero_div] at hA
    norm_num at hA
  · rw [Nat.cast_zero, zero_div] at hB
    norm_num at hB
  · omega
  · obtain ⟨-, hD2⟩ := hD
    rw [Nat.cast_zero, zero_div] at hD2
    norm_num at hD2
  · omega
  · rfl

/-- The processed dict `process_single_post` builds from `c3OkPost` under
`svcAllOk`. -/
def c3Processed : PostDict :=
  { id := some "p1"
    text := some "hello"
    language := some "en"
    language_confidence := some (9/10)
    sentiment := some (1/2)
    toxicity := some 0
    is_sa := some true
    region := none
    likes := some 0
    shares := some 0
    comments := some 0
    views := some 0
    engagement := some 0
    is_spam := some false }

theorem process_single_post_c3OkPost :
    process_single_post svcAllOk c3OkPost = some c3Processed := by
  have hspam : is_spam (clean_for_classification "hello".toList) = false :=
    is_spam_false_of_counts (by decide) (by decide) (by decide) (by decide) (by decide)
  unfold process_single_post
  rw [show postText c3OkPost = "hello" from rfl]
  dsimp only [svcAllOk]
  simp only [hspam]
  rfl

/-- A two-row table: the row of the surviving post and the row of the
textless post. -/
def c3Db : List IngestEvent := [{ id := "p1" }, { id := "p0" }]

/-- What the flag UPDATEs would make of `c3Db` had they been committed:
the survivor marked, the filtered row untouched. -/
def c3DbMarked : List IngestEvent := [{ id := "p1", processed := true }, { id := "p0" }]

/-- The *uncommitted* session state after the flag update: even inside the
session, only the pipeline survivors' rows are marked — the textless post
was filtered out by `process_single_post` and its id never reaches the
UPDATE's id list, so its row is untouched there too.
`cluster_posts_background` then discards this state at session close. -/
theorem session_update_marks_only_survivors :
    _update_ingest_event_flags c3Db
      ([c3OkPost, c3NoTextPost].filterMap (process_single_post svcAllOk)) [] =
    c3DbMarked := by
  rw [show [c3OkPost, c3NoTextPost].filterMap (process_single_post svcAllOk) = [c3Processed]
    from by rw [List.filterMap_cons, process_single_post_c3OkPost]; rfl]
  rfl

/-- C3: a batch run never durably marks any `IngestEvent` row, on any
input.  Two independent defects defeat the claim: (1) posts filtered out by
`process_single_post` (no text, unsupported language, spam, toxicity, or a
provider error) never reach `_update_ingest_event_flags` at all; (2) the
UPDATEs issued for the surviving posts run after the function's only
`db.commit()` and are rolled back when the `async with SessionLocal()`
block closes the session, so even survivors are never durably marked.  The
table is returned unchanged: every record — contributing, filtered, or
too-small-batch alike — keeps `processed = false` and is picked up again by
every later run, i.e. records ARE retried forever. -/
theorem ingest_run_never_marks_any_row (env : ServicesEnv) (cenv : ClusterEnv)
    (cache : List (String × List ℚ)) (create : TopicDraft → Option String)
    (db : List IngestEvent) (posts : List PostDict) :
    process_and_cluster_posts_background env cenv cache create db posts = db := by
  unfold process_and_cluster_posts_background cluster_posts_background
  dsimp only
  split <;> rfl

/-! ## At-most-once topic linking (C4) -/

theorem execStmt_getElem? {db : List IngestEvent} {s : UpdateStmt} {i : Nat}
    {r : IngestEvent} (h : db[i]? = some r) (hp : r.processed = true) :
    (execStmt db s)[i]? = some r := by
  cases s with
  | withTopic pid tid =>
    simp only [execStmt, List.getElem?_map, h, Option.map_some']
    rw [if_neg (fun hc => by simp [hp] at hc)]
  | bulk pids =>
    simp only [execStmt, List.getElem?_map, h, Option.map_some']
    rw [if_neg (fun hc => by simp [hp] at hc)]

theorem foldl_execStmt_frozen (stmts : List UpdateStmt) :
    ∀ (db : List IngestEvent) (i : Nat) (r : IngestEvent),
      db[i]? = some r → r.processed = true →
      (stmts.foldl execStmt db)[i]? = some r := by
  induction stmts with
  | nil => intro db i r h _; exact h
  | cons s rest ih =>
    intro db i r h hp
    rw [List.foldl_cons]
    exact ih (execStmt db s) i r (execStmt_getElem? h hp) hp

theorem execStmt_inv {db : List IngestEvent} {s : UpdateStmt}
    (hinv : ∀ e ∈ db, e.topicId ≠ none → e.processed = true) :
    ∀ e ∈ execStmt db s, e.topicId ≠ none → e.processed = true := by
  cases s with
  | withTopic pid tid =>
    intro e he
    simp only [execStmt, List.mem_map] at he
    obtain ⟨a, ha, rfl⟩ := he
    split_ifs with hc
    · intro _
      rfl
    · exact hinv a ha
  | bulk pids =>
    intro e he
    simp only [execStmt, List.mem_map] at he
    obtain ⟨a, ha, rfl⟩ := he
    split_ifs with hc
    · intro _
      rfl
    · exact hinv a ha

theorem foldl_execStmt_inv (stmts : List UpdateStmt) :
    ∀ (db : List IngestEvent),
      (∀ e ∈ db, e.topicId ≠ none → e.processed = true) →
      ∀ e ∈ stmts.foldl execStmt db, e.topicId ≠ none → e.processed = true := by
  induction stmts with
  | nil => intro db hinv; exact hinv
  | cons s rest ih =>
    intro db hinv
    rw [List.foldl_cons]
    exact ih _ (execStmt_inv hinv)

/-- C4: every UPDATE statement issued by `_update_ingest_event_flags`
carries the `processed == False` guard and sets `processed = True`, so in
any table where a non-NULL `topicId` implies `processed` — an invariant
each statement preserves (second conjunct), and which holds for fresh rows
whose `topicId` is NULL — a row whose `topicId` has been set is never
modified again by any later statement sequence, whether from this run or
from concurrently interleaved runs (first conjunct): its `topicId` is never
overwritten with a second topic. -/
theorem ingest_topicId_at_most_once (db : List IngestEvent)
    (stmts : List UpdateStmt) (i : Nat) (r : IngestEvent) (t : String)
    (hinv : ∀ e ∈ db, e.topicId ≠ none → e.processed = true)
    (hr : db[i]? = some r) (ht : r.topicId = some t) :
    (stmts.foldl execStmt db)[i]? = some r ∧
    ∀ e ∈ stmts.foldl execStmt db, e.topicId ≠ none → e.processed = true := by
  have hp : r.processed = true := hinv r (mem_of_getElem hr) (by simp [ht])
  exact ⟨foldl_execStmt_frozen stmts db i r hr hp, foldl_execStmt_inv stmts db hinv⟩

/-- A row already linked to topic `t1` next to a fresh row. -/
def c4Db : List IngestEvent :=
  [{ id := "a", processed := true, topicId := some "t1" }, { id := "b" }]

/-- A later run trying to relink row `a` to `t2` and bulk-mark both rows. -/
def c4Stmts : List UpdateStmt :=
  [UpdateStmt.withTopic "a" "t2", UpdateStmt.bulk ["a", "b"]]

/-- Witness for C4: row `a` keeps `topicId = "t1"` through both statements. -/
theorem ingest_topicId_at_most_once_witness :
    (c4Stmts.foldl execStmt c4Db)[0]? =
      some { id := "a", processed := true, topicId := some "t1" } ∧
    ∀ e ∈ c4Stmts.foldl execStmt c4Db, e.topicId ≠ none → e.processed = true :=
  ingest_topicId_at_most_once c4Db c4Stmts 0
    { id := "a", processed := true, topicId := some "t1" } "t1"
    (by decide) (by decide) (by decide)

/-! ## Classification fan-out (classify_router.py, C9)

The cache layer is modelled by its outcome: `cached` is the value
`cache_service.get_json(cache_key)` produced for this request (`none` for a
miss or a falsy entry); the md5 key construction itself carries no logic.
The wall-clock `processing_time_ms` field is not modelled. -/

/-- The two error responses `classify_text` can raise to the caller. -/
inductive HTTPErr where
  | badRequest (detail : String)
  | internalServerError (detail : String)
  deriving Repr, DecidableEq

/-- `ClassifyRequest` (schemas.py lines 133-142) with its defaults; the
Pydantic layer already enforces 1 ≤ len(text) ≤ 5000, which the router
re-checks. -/
structure ClassifyRequest where
  text : String
  language : String := "auto"
  include_toxicity : Bool := true
  include_sentiment : Bool := true
  include_geo : Bool := false
  deriving Repr, DecidableEq

/-- `ClassificationResult` (schemas.py lines 341-351) without the
wall-clock `processing_time_ms`. -/
structure ClassificationResult where
  text : String
  language : String
  language_confidence : ℚ
  sentiment : Option SentimentScore := none
  toxicity : Option ToxicityScore := none
  geo_classification : Option GeoClassification := none
  text_length : Nat
  is_spam : Bool := false
  deriving Repr, DecidableEq

/-- Embeds `classify_text` (classify_router.py lines 59-197): validation
(HTTP 400 for empty/whitespace text and for texts over
`settings.max_text_length = 5000` code points), cache short-circuit, then
cleaning, spam check, language detection with its own handler, and the
three independently guarded classifier calls — each in its own try/except
whose failure only leaves that field `None` (`Except.toOption`). -/
def classify_text (env : ServicesEnv) (cached : Option ClassificationResult)
    (request : ClassifyRequest) : Except HTTPErr ClassificationResult :=
  if request.text = "" ∨ pyStrip request.text.toList = [] then
    Except.error (HTTPErr.badRequest "Text cannot be empty")
  else if 5000 < request.text.length then
    Except.error (HTTPErr.badRequest "Text exceeds maximum length of 5000")
  else match cached with
    | some r => Except.ok r
    | none =>
      let cleaned_list := clean_for_classification request.text.toList
      let cleaned_text := String.mk cleaned_list
      let is_spam_flag := is_spam cleaned_list
      let lang :=
        if request.language ≠ "auto" then (request.language, (1 : ℚ))
        else match env.detect cleaned_text (1/2) with
          | Except.ok p => p
          | Except.error _ => ("unknown", (0 : ℚ))
      let supported_language := env.is_supported_language cleaned_text (7/10)
      let sentiment_result :=
        if supported_language && !is_spam_flag then
          if request.include_sentiment then (env.sentimentAnalyze cleaned_text).toOption
          else none
        else none
      let toxicity_result :=
        if supported_language && !is_spam_flag then
          if request.include_toxicity then (env.toxicityAnalyze cleaned_text).toOption
          else none
        else none
      let geo_result :=
        if supported_language && !is_spam_flag then
          if request.include_geo then (env.geoClassify cleaned_text).toOption
          else none
        else none
      Except.ok { text := request.text
                  language := lang.1
                  language_confidence := lang.2
                  sentiment := sentiment_result
                  toxicity := toxicity_result
                  geo_classification := geo_result
                  text_length := request.text.length
                  is_spam := is_spam_flag }

/-- C9: on a cache miss with valid text in a supported language that is not
spam, `classify_text` returns `ok` — no downstream failure is ever raised
to the caller — and each of the three fields equals its own provider's
`Except` result converted by `.toOption`: requested-and-failed gives
`null`, requested-and-succeeded gives the value, not-requested gives
`null`.  Each field depends only on its own provider, so one provider's
failure leaves the other classifiers' outputs untouched. -/
theorem classify_fanout_independent (env : ServicesEnv) (request : ClassifyRequest)
    (hne : ¬ (request.text = "" ∨ pyStrip request.text.toList = []))
    (hlen : ¬ 5000 < request.text.length)
    (hsup : env.is_supported_language
      (String.mk (clean_for_classification request.text.toList)) (7/10) = true)
    (hspam : is_spam (clean_for_classification request.text.toList) = false) :
    ∃ result, classify_text env none request = Except.ok result ∧
      result.sentiment = (if request.include_sentiment then
        (env.sentimentAnalyze
          (String.mk (clean_for_classification request.text.toList))).toOption
        else none) ∧
      result.toxicity = (if request.include_toxicity then
        (env.toxicityAnalyze
          (String.mk (clean_for_classification request.text.toList))).toOption
        else none) ∧
      result.geo_classification = (if request.include_geo then
        (env.geoClassify
          (String.mk (clean_for_classification request.text.toList))).toOption
        else none) := by
  unfold classify_text
  rw [if_neg hne, if_neg hlen]
  dsimp only
  rw [hsup, hspam]
  exact ⟨_, rfl, rfl, rfl, rfl⟩

/-- Services where only the sentiment provider is down. -/
def c9Env : ServicesEnv :=
  { detect := fun _ _ => Except.ok ("en", 9/10)
    is_supported_language := fun _ _ => true
    sentimentAnalyze := fun _ => Except.error PyErr.providerError
    toxicityAnalyze := fun _ => Except.ok { score := 1/10, is_toxic := false, confidence := 9/10 }
    geoClassify := fun _ => Except.ok { confidence := 1, is_south_african := false } }

/-- A default request: sentiment and toxicity on, geo off. -/
def c9Req : ClassifyRequest := { text := "hello" }

/-- Witness for C9: with the sentiment provider failing, the result is
still `ok`, its sentiment field is `null`, and the toxicity analysis is
returned untouched. -/
theorem classify_fanout_independent_witness :
    ∃ result, classify_text c9Env none c9Req = Except.ok result ∧
      result.sentiment = none ∧
      result.toxicity = some { score := 1/10, is_toxic := false, confidence := 9/10 } ∧
      result.geo_classification = none :=
  classify_fanout_independent c9Env c9Req (by decide) (by decide) rfl
    (is_spam_false_of_counts (by decide) (by decide) (by decide) (by decide) (by decide))

end Viralfx
